import Mathlib

/-!
# Solo consenter: the scheduling loop of `orderer/solo/consensus.go`

A shallow embedding of the solo ordering scheme.  The Go struct `chain`, its
methods `Start`, `Halt`, `Enqueue` and the loop `main` are translated into
functions over an explicit process state (`World`).  The collaborators reached
through `ch.support` (the block cutter and the writer) and the logger are
outside the file: the block cutter is a parameter (an arbitrary state machine),
and every call the loop makes is recorded, in program order, in a trace.
-/

namespace solo

/-- A `*cb.Envelope`: an opaque pointer, compared by address. -/
abbrev Envelope := Nat

/-- A `[]*cb.Envelope`; the loop only looks at its length. -/
abbrev Batch := List Envelope

/-- The second argument of `Writer().Append`; the loop always passes `nil`. -/
abbrev Metadata := List (List Nat)

/-- An instant of the clock, in nanoseconds. -/
abbrev Time := Int

/-- A `time.Duration`, in nanoseconds. -/
abbrev Duration := Int

/-- What the loop does, in program order.  `Ordered` and `Cut` carry the values
the block cutter returned; `timerSet` is the assignment
`timer = time.After(ch.batchTimeout)` with the instant at which the channel
fires, `timerNil` the assignment `timer = nil`. -/
inductive Action where
  | Ordered (msg : Envelope) (batches : List Batch) (ok : Bool)
  | Cut (batch : Batch)
  | Append (batch : Batch) (metadata : Option Metadata)
  | Warningf (format : String)
  | Debugf (format : String)
  | timerSet (deadline : Time)
  | timerNil
  deriving DecidableEq, Repr

/-- The part of `multichain.ConsenterSupport` the loop uses.  The interface is
declared outside this file, so `BlockCutter().Ordered` and `BlockCutter().Cut`
are parameters: arbitrary functions over a block-cutter state `κ`.
`Writer().Append` returns nothing and is recorded in the trace. -/
structure ConsenterSupport (κ : Type) where
  Ordered : κ → Envelope → (List Batch × Bool) × κ
  Cut : κ → Batch × κ

/-- A Go channel as far as this file uses one: its capacity and whether it has
been closed.  Both channels of a chain are made with capacity zero, so nothing
is ever stored in them. -/
structure Chan where
  cap : Nat
  closed : Bool
  deriving DecidableEq, Repr

/-- The Go expression `make(chan T)`: an open channel of capacity zero. -/
def makeChan : Chan := { cap := 0, closed := false }

/-- The Go builtin `close(c)`: closing a closed channel panics. -/
def closeChan (c : Chan) : Except String Chan :=
  if c.closed then .error "close of closed channel" else .ok { c with closed := true }

/-- The struct `consenter`. -/
structure consenter where
  batchTimeout : Duration
  deriving DecidableEq, Repr

/-- The struct `chain`. -/
structure chain (κ : Type) where
  support : ConsenterSupport κ
  batchTimeout : Duration
  sendChan : Chan
  exitChan : Chan

/-- The function `New`. -/
def New (batchTimeout : Duration) : consenter :=
  { batchTimeout := batchTimeout }

/-- The function `newChain`. -/
def newChain {κ : Type} (batchTimeout : Duration) (support : ConsenterSupport κ) : chain κ :=
  { batchTimeout := batchTimeout
    support := support
    sendChan := makeChan
    exitChan := makeChan }

/-- The method `consenter.HandleChain`; the second component is the returned
`error`, `none` for `nil`. -/
def consenter.HandleChain {κ : Type} (solo : consenter) (support : ConsenterSupport κ) :
    chain κ × Option String :=
  (newChain solo.batchTimeout support, none)

/-- The goroutine that runs `ch.main`: not yet spawned, inside the `for` loop,
or returned. -/
inductive Goroutine where
  | notStarted
  | looping
  | returned
  deriving DecidableEq, Repr

/-- The state of the process around one chain: the struct itself, the goroutine
of `main` with its local variable `timer` (`none` for `nil`, `some t` for a
channel that fires at instant `t`), the state of the block cutter, and the
trace of what the loop has done so far. -/
structure World (κ : Type) where
  ch : chain κ
  main : Goroutine
  timer : Option Time
  cutter : κ
  trace : List Action

/-- A chain that has just been constructed, next to a block cutter in state `k`. -/
def World.ofChain {κ : Type} (c : chain κ) (k : κ) : World κ :=
  { ch := c, main := .notStarted, timer := none, cutter := k, trace := [] }

/-- The library call `time.After(d)` made at instant `now`: by its documented
contract the returned channel delivers once `d` has elapsed, that is at
`now + d`. -/
def timeAfter (now : Time) (d : Duration) : Time := now + d

/-- One `select` of the loop: which case fires.  `recv` is the handoff of an
envelope by a sender blocked in `Enqueue`; `now` is the instant of the event. -/
inductive Event where
  | recv (msg : Envelope) (now : Time)
  | timer (now : Time)
  | exit
  deriving DecidableEq, Repr

/-- The body of `case msg := <-ch.sendChan`. -/
def chain.onMsg {κ : Type} (w : World κ) (msg : Envelope) (now : Time) : World κ :=
  let r := w.ch.support.Ordered w.cutter msg
  let batches := r.1.1
  let ok := r.1.2
  let w1 : World κ := { w with cutter := r.2, trace := w.trace ++ [Action.Ordered msg batches ok] }
  if ok && batches.length == 0 && w1.timer.isNone then
    { w1 with
      timer := some (timeAfter now w1.ch.batchTimeout)
      trace := w1.trace ++ [Action.timerSet (timeAfter now w1.ch.batchTimeout)] }
  else
    let w2 : World κ :=
      { w1 with trace := w1.trace ++ batches.map (fun batch => Action.Append batch none) }
    if batches.length > 0 then
      { w2 with timer := none, trace := w2.trace ++ [Action.timerNil] }
    else w2

/-- The body of `case <-timer`. -/
def chain.onTimer {κ : Type} (w : World κ) : World κ :=
  let w1 : World κ := { w with timer := none, trace := w.trace ++ [Action.timerNil] }
  let r := w1.ch.support.Cut w1.cutter
  let batch := r.1
  let w2 : World κ := { w1 with cutter := r.2, trace := w1.trace ++ [Action.Cut batch] }
  if batch.length == 0 then
    { w2 with trace := w2.trace ++
        [Action.Warningf "Batch timer expired with no pending requests, this might indicate a bug"] }
  else
    { w2 with trace := w2.trace ++
        [Action.Debugf "Batch timer expired, creating block", Action.Append batch none] }

/-- The body of `case <-ch.exitChan`: log and return from `main`. -/
def chain.onExit {κ : Type} (w : World κ) : World κ :=
  { w with main := .returned, trace := w.trace ++ [Action.Debugf "Exiting"] }

/-- One iteration of the `for` loop of `main` on the given event; `none` when
the `select` cannot take that case: the goroutine is not in the loop, `timer`
is `nil` or has not reached its instant, or `exitChan` is still open. -/
def chain.mainStep {κ : Type} (w : World κ) : Event → Option (World κ)
  | .recv msg now =>
    if w.main = .looping then some (chain.onMsg w msg now) else none
  | .timer now =>
    match w.timer with
    | some deadline =>
      if w.main = .looping ∧ deadline ≤ now then some (chain.onTimer w) else none
    | none => none
  | .exit =>
    if w.main = .looping ∧ w.ch.exitChan.closed = true then some (chain.onExit w) else none

/-- The method `main`: the loop, run over the events its `select` takes. -/
def chain.main {κ : Type} (w : World κ) : List Event → Option (World κ)
  | [] => some w
  | e :: es => (chain.mainStep w e).bind (fun w' => chain.main w' es)

/-- The method `Start`: spawn the goroutine of `main`.  A second call would
spawn a second loop, which this one-loop state does not represent (`none`). -/
def chain.Start {κ : Type} (w : World κ) : Option (World κ) :=
  if w.main = .notStarted then some { w with main := .looping } else none

/-- The method `Halt`: `select` on `<-ch.exitChan` (ready once the channel is
closed) with a `default` that closes the channel. -/
def chain.Halt {κ : Type} (w : World κ) : Except String (World κ) :=
  if w.ch.exitChan.closed then .ok w
  else
    match closeChan w.ch.exitChan with
    | .ok c => .ok { w with ch := { w.ch with exitChan := c } }
    | .error e => .error e

/-- The two cases of the `select` in `Enqueue`. -/
inductive EnqueueCase where
  | send
  | exit
  deriving DecidableEq, Repr

/-- The cases of the `select` in `Enqueue` that can fire: the send on the
unbuffered `sendChan` needs the loop as receiver, the receive on `exitChan`
needs the channel closed.  An empty list means the call blocks. -/
def chain.EnqueueReady {κ : Type} (w : World κ) : List EnqueueCase :=
  (if w.main = .looping then [EnqueueCase.send] else []) ++
  (if w.ch.exitChan.closed then [EnqueueCase.exit] else [])

/-- The method `Enqueue`, resolved by the case `c` its `select` takes: the
returned value and the state afterwards, `none` when that case cannot fire.
The send completes together with the receive of the loop, which then runs
its iteration on the envelope. -/
def chain.Enqueue {κ : Type} (w : World κ) (env : Envelope) (now : Time) :
    EnqueueCase → Option (Bool × World κ)
  | .send => (chain.mainStep w (.recv env now)).map (fun w' => (true, w'))
  | .exit => if w.ch.exitChan.closed then some (false, w) else none

/-- A chain built by `New` and `HandleChain`, started, and its loop run over
the events `evs`, next to a block cutter whose state is `k` at the beginning. -/
def execute {κ : Type} (d : Duration) (support : ConsenterSupport κ) (k : κ)
    (evs : List Event) : Option (World κ) :=
  (chain.Start (World.ofChain ((New d).HandleChain support).1 k)).bind
    (fun w => chain.main w evs)

/-- A block cutter that plays back fixed results: the `i`-th call of `Ordered`
returns the `i`-th entry of `os` (and `([], true)` past the end), the `j`-th
call of `Cut` the `j`-th entry of `cs` (and the empty batch past the end).
Its state counts the calls made so far. -/
def scripted (os : List (List Batch × Bool)) (cs : List Batch) : ConsenterSupport (Nat × Nat) where
  Ordered := fun k _ => (os.getD k.1 ([], true), (k.1 + 1, k.2))
  Cut := fun k => (cs.getD k.2 [], (k.1, k.2 + 1))

/-- A block cutter that cuts by count: it keeps the pending envelopes and
returns them as one batch once there are `size` of them; `Cut` hands out
whatever is pending.  Its state is the pending batch. -/
def countCutter (size : Nat) : ConsenterSupport Batch where
  Ordered := fun pending msg =>
    if (pending ++ [msg]).length < size then (([], true), pending ++ [msg])
    else (([pending ++ [msg]], true), [])
  Cut := fun pending => (pending, [])


/-! ## Reading a trace -/

/-- The action is a call of `Writer().Append`. -/
def Action.isAppend : Action → Bool
  | .Append _ _ => true
  | _ => false

/-- The action is a warning record. -/
def Action.isWarning : Action → Bool
  | .Warningf _ => true
  | _ => false

/-- The action arms the timer. -/
def Action.isArm : Action → Bool
  | .timerSet _ => true
  | _ => false

/-- Whether the timer has been armed since the last `Append` or warning of the
trace, starting from the flag `f`. -/
def armedSince : Bool → List Action → Bool
  | f, [] => f
  | f, a :: t =>
    armedSince (if a.isAppend || a.isWarning then false else if a.isArm then true else f) t

/-- Scan of a trace: no arming happens while an earlier arming has not been
followed by an `Append` or a warning; `f` says whether one is outstanding at the
beginning. -/
def armsOnce : Bool → List Action → Bool
  | _, [] => true
  | f, a :: t =>
    if a.isAppend || a.isWarning then armsOnce false t
    else if a.isArm then !f && armsOnce true t
    else armsOnce f t


/-- The batches passed to `Writer().Append`, in the order of the calls. -/
def appended (t : List Action) : List Batch :=
  t.filterMap (fun a => match a with
    | .Append batch _ => some batch
    | _ => none)

/-- The batches the block cutter hands out when it is driven by the events
`evs` from state `k`, in event order: for an envelope the batch list `Ordered`
returns, for a timer expiry the batch `Cut` returns when it is not empty. -/
def returnedBatches {κ : Type} (support : ConsenterSupport κ) : κ → List Event → List Batch
  | _, [] => []
  | k, .recv msg _ :: es =>
    (support.Ordered k msg).1.1 ++ returnedBatches support (support.Ordered k msg).2 es
  | k, .timer _ :: es =>
    (if (support.Cut k).1 = [] then [] else [(support.Cut k).1]) ++
      returnedBatches support (support.Cut k).2 es
  | k, .exit :: es => returnedBatches support k es

/-! ## The block cutter -/

/-- Modelled from the spec: the contract of the batch cutter (section 6), whose
code is outside this file.  `pending k` is the batch the cutter holds in state
`k`.  An envelope that is not accepted is not counted toward any batch; an
accepted envelope for which no batch is ready is buffered for a future batch;
`Cut` flushes whatever is pending, and returns the empty batch when nothing
was. -/
structure CutterContract {κ : Type} (support : ConsenterSupport κ) (pending : κ → Batch) :
    Prop where
  rejected : ∀ k msg, (support.Ordered k msg).1.2 = false →
    pending (support.Ordered k msg).2 = pending k
  buffered : ∀ k msg, (support.Ordered k msg).1 = ([], true) →
    pending (support.Ordered k msg).2 = pending k ++ [msg]
  flushed : ∀ k, (support.Cut k).1 = pending k ∧ pending (support.Cut k).2 = []

/-- A block cutter that cuts on overflow: when `size` envelopes are pending, the
next envelope makes it hand out the pending ones as a ready batch and becomes
the first envelope of the next batch.  Its state is the pending batch. -/
def overflowCutter (size : Nat) : ConsenterSupport Batch where
  Ordered := fun pending msg =>
    if pending.length < size then (([], true), pending ++ [msg])
    else (([pending], true), [msg])
  Cut := fun pending => (pending, [])


/-! ## Operations on a chain -/

/-- What can happen to a chain: a call of `Start`, of `Halt` or of `Enqueue`
(with the case its `select` takes), and the two cases of the loop that need no
caller, the timer expiry and the receipt of the shutdown signal. -/
inductive Op where
  | Start
  | Halt
  | Enqueue (env : Envelope) (now : Time) (c : EnqueueCase)
  | timer (now : Time)
  | exit
  deriving DecidableEq, Repr

/-- The state after one operation; `none` when it cannot happen in `w` (a
`select` case that cannot fire, a call that panics). -/
def applyOp {κ : Type} (w : World κ) : Op → Option (World κ)
  | .Start => chain.Start w
  | .Halt =>
    match chain.Halt w with
    | .ok w' => some w'
    | .error _ => none
  | .Enqueue env now c => (chain.Enqueue w env now c).map (fun r => r.2)
  | .timer now => chain.mainStep w (.timer now)
  | .exit => chain.mainStep w .exit

/-- The state after a sequence of operations. -/
def runOps {κ : Type} (w : World κ) : List Op → Option (World κ)
  | [] => some w
  | op :: ops => (applyOp w op).bind (fun w' => runOps w' ops)


/-! ## The envelopes that reach the cutter -/

/-- The envelopes passed to `BlockCutter().Ordered`, in the order of the calls. -/
def orderedCalls (t : List Action) : List Envelope :=
  t.filterMap (fun a => match a with
    | .Ordered msg _ _ => some msg
    | _ => none)

/-- The envelope an event of the loop carries, if any. -/
def Event.received : Event → List Envelope
  | .recv msg _ => [msg]
  | _ => []

/-- The envelopes of the calls of `Enqueue` that took the send case (the ones
that return `true`), in the order of the handoffs. -/
def handedOver (ops : List Op) : List Envelope :=
  ops.filterMap (fun op => match op with
    | .Enqueue env _ .send => some env
    | _ => none)


/-! ## Concurrent calls of Halt -/

/-- Where a goroutine stands inside `Halt`: about to evaluate the `select`,
inside the `default` case about to run `close(ch.exitChan)`, returned, or
stopped by a panic. -/
inductive HaltPc where
  | atSelect
  | atClose
  | returned
  | panicked
  deriving DecidableEq, Repr

/-- One atomic step of a goroutine inside `Halt`.  The `select` polls
`exitChan`: when it is closed the receive case is taken and the call returns,
otherwise the `default` case is entered.  The statement `close(ch.exitChan)` of
the `default` case is a step of its own. -/
def chain.haltStep (exitChan : Chan) : HaltPc → Chan × HaltPc
  | .atSelect => if exitChan.closed then (exitChan, .returned) else (exitChan, .atClose)
  | .atClose =>
    match closeChan exitChan with
    | .ok c => (c, .returned)
    | .error _ => (exitChan, .panicked)
  | .returned => (exitChan, .returned)
  | .panicked => (exitChan, .panicked)

/-- Goroutines inside `Halt` on the same chain, interleaved by a schedule: each
entry names the goroutine that takes the next atomic step. -/
def chain.haltInterleaved (exitChan : Chan) (pcs : List HaltPc) : List Nat → Chan × List HaltPc
  | [] => (exitChan, pcs)
  | i :: schedule =>
    match pcs.get? i with
    | some pc =>
      chain.haltInterleaved (chain.haltStep exitChan pc).1
        (pcs.set i (chain.haltStep exitChan pc).2) schedule
    | none => chain.haltInterleaved exitChan pcs schedule

/-! ## The timer as the trace records it -/

/-- The action is a call of `BlockCutter().Cut`. -/
def Action.isCut : Action → Bool
  | .Cut _ => true
  | _ => false

/-- The value of `timer` after the assignments recorded in a trace, starting
from `cur`. -/
def timerOf (cur : Option Time) : List Action → Option Time
  | [] => cur
  | .timerSet deadline :: t => timerOf (some deadline) t
  | .timerNil :: t => timerOf none t
  | _ :: t => timerOf cur t

/-- Run of an automaton over a trace; `none` when it gets stuck. -/
def scan {σ : Type} (δ : σ → Action → Option σ) : σ → List Action → Option σ
  | st, [] => some st
  | st, a :: t => (δ st a).bind (fun st' => scan δ st' t)

/-- Automaton for "a `Cut` comes right after the `timer = nil` that cleared an
armed timer": the state is the value of `timer` and whether the last action
was such a `timer = nil`; it gets stuck on any other `Cut`. -/
def firedStep : Option Time × Bool → Action → Option (Option Time × Bool)
  | (_, _), .timerSet deadline => some (some deadline, false)
  | (cur, _), .timerNil => some (none, cur.isSome)
  | (cur, fired), .Cut _ => if fired then some (cur, false) else none
  | (cur, _), _ => some (cur, false)

/-- Automaton for "no `Cut` after an `Ordered` that returned batches until the
timer is armed again": the state says whether such an `Ordered` has happened
with no arming since; it gets stuck on a `Cut` in that state. -/
def resolvedStep : Bool → Action → Option Bool
  | _, .Ordered _ (_ :: _) _ => some true
  | _, .timerSet _ => some false
  | resolved, .Cut _ => if resolved then none else some resolved
  | resolved, _ => some resolved

/-! ## The case of an envelope -/

/-- What the loop does on an envelope, whatever `Ordered` returns. -/
theorem onMsg_eq {κ : Type} (w : World κ) (msg : Envelope) (now : Time) :
    chain.onMsg w msg now =
      (if (w.ch.support.Ordered w.cutter msg).1.2 = true ∧
          (w.ch.support.Ordered w.cutter msg).1.1 = [] ∧ w.timer = none then
        { w with
          cutter := (w.ch.support.Ordered w.cutter msg).2
          timer := some (now + w.ch.batchTimeout)
          trace := w.trace ++ [Action.Ordered msg [] true,
            Action.timerSet (now + w.ch.batchTimeout)] }
      else if (w.ch.support.Ordered w.cutter msg).1.1 = [] then
        { w with
          cutter := (w.ch.support.Ordered w.cutter msg).2
          trace := w.trace ++ [Action.Ordered msg [] (w.ch.support.Ordered w.cutter msg).1.2] }
      else
        { w with
          cutter := (w.ch.support.Ordered w.cutter msg).2
          timer := none
          trace := w.trace ++ [Action.Ordered msg (w.ch.support.Ordered w.cutter msg).1.1
              (w.ch.support.Ordered w.cutter msg).1.2] ++
            (w.ch.support.Ordered w.cutter msg).1.1.map (fun batch => Action.Append batch none) ++
            [Action.timerNil] }) := by
  unfold chain.onMsg timeAfter
  rcases h : w.ch.support.Ordered w.cutter msg with ⟨⟨bs, ok⟩, k'⟩
  cases bs <;> cases ok <;> cases ht : w.timer <;> simp [ht]

/-- C1, as stated, fails: from a fresh chain with `batchTimeout = 10`, the first
envelope is buffered and arms the timer for instant 10; for the second envelope
`Ordered` returns the batch list `[[1, 2]]` together with `accepted = false`,
and the loop calls `Append([1, 2], nil)` and sets the timer to `nil`. -/
theorem rejected_with_batches_appends :
    (execute 10 (scripted [([], true), ([[1, 2]], false)] []) (0, 0)
        [.recv 1 0]).map (fun w => w.timer) = some (some 10) ∧
    (execute 10 (scripted [([], true), ([[1, 2]], false)] []) (0, 0)
        [.recv 1 0, .recv 2 3]).map (fun w => (w.timer, w.trace)) =
      some (none,
        [Action.Ordered 1 [] true, Action.timerSet 10,
         Action.Ordered 2 [[1, 2]] false, Action.Append [1, 2] none, Action.timerNil]) :=
  ⟨rfl, rfl⟩

/-- C1, amended: when `Ordered` returns `accepted = false` with an empty batch
list, the loop calls `Append` zero times and leaves the timer as it was (the
only thing recorded is the call of `Ordered`); when it returns
`accepted = false` with a non-empty batch list, the loop appends every batch in
the order returned and sets the timer to `nil`. -/
theorem rejected_envelope_step {κ : Type} (w : World κ) (msg : Envelope) (now : Time)
    (batches : List Batch) (k' : κ) (hloop : w.main = .looping)
    (hord : w.ch.support.Ordered w.cutter msg = ((batches, false), k')) :
    ∃ w', chain.mainStep w (.recv msg now) = some w' ∧
      w'.cutter = k' ∧ w'.main = .looping ∧
      (batches = [] →
        w'.timer = w.timer ∧ w'.trace = w.trace ++ [Action.Ordered msg [] false]) ∧
      (batches ≠ [] →
        w'.timer = none ∧
        w'.trace = w.trace ++ [Action.Ordered msg batches false] ++
          batches.map (fun batch => Action.Append batch none) ++ [Action.timerNil]) := by
  refine ⟨chain.onMsg w msg now, by simp [chain.mainStep, hloop], ?_⟩
  rw [onMsg_eq, hord]
  by_cases hb : batches = [] <;> simp [hb, hloop]

/-- Witness for C1 (amended): a looping chain with the timer armed
for instant 10 receives an envelope that the block cutter rejects. -/
theorem rejected_envelope_step_witness :
    ∃ w' : World (Nat × Nat),
      chain.mainStep
        { ch := newChain 10 (scripted [([], false)] []), main := .looping, timer := some 10,
          cutter := (0, 0), trace := [] } (.recv 1 3) = some w' ∧
      w'.cutter = (1, 0) ∧ w'.main = .looping ∧
      (([] : List Batch) = [] →
        w'.timer = some 10 ∧ w'.trace = [] ++ [Action.Ordered 1 [] false]) ∧
      (([] : List Batch) ≠ [] →
        w'.timer = none ∧
        w'.trace = [] ++ [Action.Ordered 1 [] false] ++
          ([] : List Batch).map (fun batch => Action.Append batch none) ++ [Action.timerNil]) :=
  rejected_envelope_step
    { ch := newChain 10 (scripted [([], false)] []), main := .looping, timer := some 10,
      cutter := (0, 0), trace := [] } 1 3 [] (1, 0) rfl rfl

/-- C2: when `Ordered` returns a non-empty batch list, the loop calls
`Append(batch, nil)` once per batch, in the order returned, and nothing else
after the call of `Ordered` except setting the timer to `nil`; the timer is
`nil` afterwards whatever it was before and whatever `accepted` is. -/
theorem batches_appended_in_order_and_timer_disarmed {κ : Type} (w : World κ)
    (msg : Envelope) (now : Time) (batches : List Batch) (ok : Bool) (k' : κ)
    (hloop : w.main = .looping)
    (hord : w.ch.support.Ordered w.cutter msg = ((batches, ok), k'))
    (hne : batches ≠ []) :
    ∃ w', chain.mainStep w (.recv msg now) = some w' ∧
      w'.trace = w.trace ++ [Action.Ordered msg batches ok] ++
        batches.map (fun batch => Action.Append batch none) ++ [Action.timerNil] ∧
      w'.timer = none ∧ w'.cutter = k' ∧ w'.main = .looping := by
  refine ⟨chain.onMsg w msg now, by simp [chain.mainStep, hloop], ?_⟩
  rw [onMsg_eq, hord]
  simp [hne, hloop]

/-- Witness for C2: the timer is
armed for instant 10 and `Ordered` returns two batches. -/
theorem batches_appended_in_order_and_timer_disarmed_witness :
    ∃ w' : World (Nat × Nat),
      chain.mainStep
        { ch := newChain 10 (scripted [([[1], [2, 3]], true)] []), main := .looping,
          timer := some 10, cutter := (0, 0), trace := [] } (.recv 3 4) = some w' ∧
      w'.trace = [] ++ [Action.Ordered 3 [[1], [2, 3]] true] ++
        [[1], [2, 3]].map (fun batch => Action.Append batch none) ++ [Action.timerNil] ∧
      w'.timer = none ∧ w'.cutter = (1, 0) ∧ w'.main = .looping :=
  batches_appended_in_order_and_timer_disarmed
    { ch := newChain 10 (scripted [([[1], [2, 3]], true)] []), main := .looping,
      timer := some 10, cutter := (0, 0), trace := [] } 3 4 [[1], [2, 3]] true (1, 0)
    rfl rfl (by decide)

/-- C3: when `Ordered` returns `accepted = true` and an empty batch list, the
loop calls `Append` zero times; with the timer `nil` it arms it for
`now + batchTimeout`, with the timer armed it leaves it at the same instant and
records no new arming. -/
theorem buffered_envelope_arms_timer_once {κ : Type} (w : World κ) (msg : Envelope)
    (now : Time) (k' : κ) (hloop : w.main = .looping)
    (hord : w.ch.support.Ordered w.cutter msg = (([], true), k')) :
    ∃ w', chain.mainStep w (.recv msg now) = some w' ∧
      w'.cutter = k' ∧ w'.main = .looping ∧
      (w.timer = none →
        w'.timer = some (now + w.ch.batchTimeout) ∧
        w'.trace = w.trace ++
          [Action.Ordered msg [] true, Action.timerSet (now + w.ch.batchTimeout)]) ∧
      (∀ deadline, w.timer = some deadline →
        w'.timer = some deadline ∧ w'.trace = w.trace ++ [Action.Ordered msg [] true]) := by
  refine ⟨chain.onMsg w msg now, by simp [chain.mainStep, hloop], ?_⟩
  rw [onMsg_eq, hord]
  cases ht : w.timer <;> simp [ht, hloop]

/-- Witness for C3: a looping chain with
`batchTimeout = 10` and no timer buffers an envelope at instant 3. -/
theorem buffered_envelope_arms_timer_once_witness :
    ∃ w' : World Batch,
      chain.mainStep
        { ch := newChain 10 (countCutter 2), main := .looping, timer := none,
          cutter := [], trace := [] } (.recv 1 3) = some w' ∧
      w'.cutter = [1] ∧ w'.main = .looping ∧
      ((none : Option Time) = none →
        w'.timer = some (3 + 10) ∧
        w'.trace = [] ++ [Action.Ordered 1 [] true, Action.timerSet (3 + 10)]) ∧
      (∀ deadline, (none : Option Time) = some deadline →
        w'.timer = some deadline ∧ w'.trace = [] ++ [Action.Ordered 1 [] true]) :=
  buffered_envelope_arms_timer_once
    { ch := newChain 10 (countCutter 2), main := .looping, timer := none,
      cutter := [], trace := [] } 1 3 [1] rfl rfl

/-! ## The case of the timer -/

/-- C4: on a timer expiry the loop first sets the timer to `nil`, then calls
`Cut` once; an empty batch gives one warning and no `Append`, a non-empty batch
`b` gives exactly one `Append(b, nil)` and no warning.  Either way the loop is
still running afterwards, with the timer `nil`. -/
theorem timer_expiry_step {κ : Type} (w : World κ) (now deadline : Time)
    (batch : Batch) (k' : κ) (hloop : w.main = .looping)
    (htimer : w.timer = some deadline) (hdue : deadline ≤ now)
    (hcut : w.ch.support.Cut w.cutter = (batch, k')) :
    ∃ w', chain.mainStep w (.timer now) = some w' ∧
      w'.timer = none ∧ w'.main = .looping ∧ w'.cutter = k' ∧
      (batch = [] →
        w'.trace = w.trace ++ [Action.timerNil, Action.Cut [],
          Action.Warningf
            "Batch timer expired with no pending requests, this might indicate a bug"]) ∧
      (batch ≠ [] →
        w'.trace = w.trace ++ [Action.timerNil, Action.Cut batch,
          Action.Debugf "Batch timer expired, creating block", Action.Append batch none]) := by
  refine ⟨chain.onTimer w, by simp [chain.mainStep, hloop, htimer, hdue], ?_⟩
  unfold chain.onTimer
  cases batch <;> simp [hcut, hloop]

/-- Witness for C4: the timer armed for instant 10 fires at
instant 12 while envelope 1 is pending. -/
theorem timer_expiry_step_witness :
    ∃ w' : World Batch,
      chain.mainStep
        { ch := newChain 10 (countCutter 2), main := .looping, timer := some 10,
          cutter := [1], trace := [] } (.timer 12) = some w' ∧
      w'.timer = none ∧ w'.main = .looping ∧ w'.cutter = [] ∧
      (([1] : Batch) = [] →
        w'.trace = [] ++ [Action.timerNil, Action.Cut [],
          Action.Warningf
            "Batch timer expired with no pending requests, this might indicate a bug"]) ∧
      (([1] : Batch) ≠ [] →
        w'.trace = [] ++ [Action.timerNil, Action.Cut [1],
          Action.Debugf "Batch timer expired, creating block", Action.Append [1] none]) :=
  timer_expiry_step
    { ch := newChain 10 (countCutter 2), main := .looping, timer := some 10,
      cutter := [1], trace := [] } 12 10 [1] [] rfl rfl (by decide) rfl

/-! ## Whole executions -/

/-- A property kept by every iteration of the loop holds after the loop has run
over any list of events. -/
theorem main_preserves {κ : Type} (P : World κ → Prop)
    (hstep : ∀ w e w', P w → chain.mainStep w e = some w' → P w') :
    ∀ (evs : List Event) (w w' : World κ), P w → chain.main w evs = some w' → P w' := by
  intro evs
  induction evs with
  | nil =>
    intro w w' hw h
    simp only [chain.main, Option.some.injEq] at h
    exact h ▸ hw
  | cons e es ih =>
    intro w w' hw h
    simp only [chain.main, Option.bind_eq_some] at h
    obtain ⟨w1, h1, h2⟩ := h
    exact ih w1 w' (hstep w e w1 hw h1) h2

/-- An execution from a fresh chain is the loop run from the started state. -/
theorem execute_eq {κ : Type} (d : Duration) (support : ConsenterSupport κ) (k : κ)
    (evs : List Event) :
    execute d support k evs =
      chain.main { ch := newChain d support, main := .looping, timer := none,
                   cutter := k, trace := [] } evs := by
  simp [execute, chain.Start, World.ofChain, consenter.HandleChain, New]

theorem armsOnce_append (s t : List Action) :
    ∀ f, armsOnce f (s ++ t) = (armsOnce f s && armsOnce (armedSince f s) t) := by
  induction s with
  | nil => intro f; simp [armsOnce, armedSince]
  | cons a s ih =>
    intro f
    cases a <;> cases f <;> simp [armsOnce, armedSince, Action.isAppend, Action.isWarning,
      Action.isArm, ih]

theorem armedSince_append (s t : List Action) :
    ∀ f, armedSince f (s ++ t) = armedSince (armedSince f s) t := by
  induction s with
  | nil => intro f; simp [armedSince]
  | cons a s ih => intro f; simp [armedSince, ih]

theorem armsOnce_appends (batches : List Batch) :
    ∀ f, armsOnce f (batches.map (fun batch => Action.Append batch none)) = true := by
  induction batches with
  | nil => intro f; simp [armsOnce]
  | cons b bs ih => intro f; simp [armsOnce, Action.isAppend, ih]

theorem armedSince_appends (batches : List Batch) (hne : batches ≠ []) :
    ∀ f, armedSince f (batches.map (fun batch => Action.Append batch none)) = false := by
  have key : ∀ bs : List Batch,
      armedSince false (bs.map (fun batch => Action.Append batch none)) = false := by
    intro bs
    induction bs with
    | nil => simp [armedSince]
    | cons b bs ih => simpa [armedSince, Action.isAppend] using ih
  intro f
  cases batches with
  | nil => exact absurd rfl hne
  | cons b bs => simpa [armedSince, Action.isAppend] using key bs

/-- In a trace that passes the scan, a stretch without `Append` and without
warning holds at most one arming, and none when one is outstanding. -/
theorem armsOnce_segment (seg post : List Action) :
    ∀ f, armsOnce f (seg ++ post) = true →
      (∀ a ∈ seg, a.isAppend = false ∧ a.isWarning = false) →
      seg.countP Action.isArm ≤ (if f then 0 else 1) := by
  induction seg with
  | nil => intro f _ _; cases f <;> simp
  | cons a seg ih =>
    intro f h hclean
    have ha := hclean a (List.mem_cons_self a seg)
    have hrest : ∀ b ∈ seg, b.isAppend = false ∧ b.isWarning = false :=
      fun b hb => hclean b (List.mem_cons_of_mem a hb)
    by_cases harm : a.isArm = true
    · cases f with
      | true => simp [armsOnce, ha.1, ha.2, harm] at h
      | false =>
        have h' : armsOnce true (seg ++ post) = true := by
          simpa [armsOnce, ha.1, ha.2, harm] using h
        have hzero : seg.countP Action.isArm = 0 := by
          simpa using ih true h' hrest
        simp [List.countP_cons, harm, hzero]
    · have h' : armsOnce f (seg ++ post) = true := by
        simpa [armsOnce, ha.1, ha.2, harm] using h
      have := ih f h' hrest
      simpa [List.countP_cons, harm] using this

/-- Every iteration of the loop keeps: the trace passes the scan, and when the
timer is `nil` no arming is outstanding. -/
theorem mainStep_armsOnce {κ : Type} (w : World κ) (e : Event) (w' : World κ)
    (hinv : armsOnce false w.trace = true ∧ (w.timer = none → armedSince false w.trace = false))
    (hstep : chain.mainStep w e = some w') :
    armsOnce false w'.trace = true ∧ (w'.timer = none → armedSince false w'.trace = false) := by
  obtain ⟨h1, h2⟩ := hinv
  cases e with
  | recv msg now =>
    by_cases hloop : w.main = .looping
    · simp only [chain.mainStep, hloop, if_true, Option.some.injEq] at hstep
      subst hstep
      rw [onMsg_eq]
      by_cases hc : (w.ch.support.Ordered w.cutter msg).1.2 = true ∧
          (w.ch.support.Ordered w.cutter msg).1.1 = [] ∧ w.timer = none
      · rw [if_pos hc]
        have h3 := h2 hc.2.2
        simp [armsOnce_append, armedSince_append, h1, h3, armsOnce, armedSince,
          Action.isAppend, Action.isWarning, Action.isArm]
      · rw [if_neg hc]
        by_cases hb : (w.ch.support.Ordered w.cutter msg).1.1 = []
        · rw [if_pos hb]
          refine ⟨?_, ?_⟩
          · simp [armsOnce_append, h1, armsOnce, Action.isAppend, Action.isWarning,
              Action.isArm]
          · intro ht
            have h3 := h2 ht
            simp [armedSince_append, h3, armedSince, Action.isAppend, Action.isWarning,
              Action.isArm]
        · rw [if_neg hb]
          simp [armsOnce_append, armedSince_append, h1, armsOnce, armedSince,
            Action.isAppend, Action.isWarning, Action.isArm, armsOnce_appends,
            armedSince_appends _ hb]
    · simp [chain.mainStep, hloop] at hstep
  | timer now =>
    cases ht : w.timer with
    | none => simp [chain.mainStep, ht] at hstep
    | some deadline =>
      by_cases hg : w.main = .looping ∧ deadline ≤ now
      · simp only [chain.mainStep, ht, hg, and_self, if_true, Option.some.injEq] at hstep
        subst hstep
        unfold chain.onTimer
        by_cases hb : (w.ch.support.Cut w.cutter).1 = []
        · simp [hb, armsOnce_append, armedSince_append, h1, armsOnce, armedSince,
            Action.isAppend, Action.isWarning, Action.isArm]
        · simp [hb, armsOnce_append, armedSince_append, h1, armsOnce, armedSince,
            Action.isAppend, Action.isWarning, Action.isArm]
      · simp [chain.mainStep, ht, hg] at hstep
  | exit =>
    by_cases hg : w.main = .looping ∧ w.ch.exitChan.closed = true
    · simp only [chain.mainStep, hg, and_self, if_true, Option.some.injEq] at hstep
      subst hstep
      refine ⟨?_, ?_⟩
      · simp [chain.onExit, armsOnce_append, h1, armsOnce, Action.isAppend, Action.isWarning,
          Action.isArm]
      · intro ht
        have h3 := h2 ht
        simp [chain.onExit, armedSince_append, h3, armedSince, Action.isAppend,
          Action.isWarning, Action.isArm]
    · simp [chain.mainStep, hg] at hstep

/-- C5, as stated, fails: with `batchTimeout = 10` and a block cutter whose `Cut`
returns an empty batch, the loop arms the timer for the first envelope, the
timer fires and `Cut` returns nothing (a warning, no `Append`), and the next
envelope arms the timer again: two armings and no `Append` in the whole
execution. -/
theorem timer_armed_twice_without_append :
    (execute 10 (scripted [] []) (0, 0) [.recv 1 0, .timer 10, .recv 2 11]).map
        (fun w => w.trace) =
      some [Action.Ordered 1 [] true, Action.timerSet 10, Action.timerNil, Action.Cut [],
        Action.Warningf "Batch timer expired with no pending requests, this might indicate a bug",
        Action.Ordered 2 [] true, Action.timerSet 21] ∧
    (execute 10 (scripted [] []) (0, 0) [.recv 1 0, .timer 10, .recv 2 11]).map
        (fun w => (w.trace.countP Action.isAppend, w.trace.countP Action.isArm)) =
      some (0, 2) :=
  ⟨rfl, rfl⟩

/-- C5, amended: in every execution of the loop from a fresh chain, for every
block cutter, a stretch of the trace that holds no `Append` and no warning
(the record of a timer expiry on which `Cut` returned nothing) holds at most
one arming of the timer. -/
theorem timer_armed_once_between_appends_or_warnings {κ : Type} (d : Duration)
    (support : ConsenterSupport κ) (k : κ) (evs : List Event) (w : World κ)
    (before seg after : List Action)
    (hrun : execute d support k evs = some w)
    (hseg : w.trace = before ++ seg ++ after)
    (hclean : ∀ a ∈ seg, a.isAppend = false ∧ a.isWarning = false) :
    seg.countP Action.isArm ≤ 1 := by
  rw [execute_eq] at hrun
  have hinv := main_preserves
    (fun w : World κ =>
      armsOnce false w.trace = true ∧ (w.timer = none → armedSince false w.trace = false))
    mainStep_armsOnce evs _ w ⟨by simp [armsOnce], by simp [armedSince]⟩ hrun
  have h1 := hinv.1
  rw [hseg, List.append_assoc, armsOnce_append] at h1
  simp only [Bool.and_eq_true] at h1
  have := armsOnce_segment seg after _ h1.2 hclean
  split at this <;> omega

/-- Witness for C5 (amended): in the execution with
two envelopes around an empty `Cut`, the stretch after the warning holds one
arming. -/
theorem timer_armed_once_between_appends_or_warnings_witness :
    [Action.Ordered 2 [] true, Action.timerSet 21].countP Action.isArm ≤ 1 :=
  timer_armed_once_between_appends_or_warnings 10 (scripted [] []) (0, 0)
    [.recv 1 0, .timer 10, .recv 2 11]
    { ch := newChain 10 (scripted [] []), main := .looping, timer := some 21,
      cutter := (2, 1),
      trace := [Action.Ordered 1 [] true, Action.timerSet 10, Action.timerNil, Action.Cut [],
        Action.Warningf "Batch timer expired with no pending requests, this might indicate a bug",
        Action.Ordered 2 [] true, Action.timerSet 21] }
    [Action.Ordered 1 [] true, Action.timerSet 10, Action.timerNil, Action.Cut [],
      Action.Warningf "Batch timer expired with no pending requests, this might indicate a bug"]
    [Action.Ordered 2 [] true, Action.timerSet 21] []
    rfl rfl (by decide)

/-! ## The timer and the pending batch -/

/-- What the loop does on a timer expiry, whatever `Cut` returns. -/
theorem onTimer_eq {κ : Type} (w : World κ) :
    chain.onTimer w =
      (if (w.ch.support.Cut w.cutter).1 = [] then
        { w with
          cutter := (w.ch.support.Cut w.cutter).2
          timer := none
          trace := w.trace ++ [Action.timerNil, Action.Cut [],
            Action.Warningf
              "Batch timer expired with no pending requests, this might indicate a bug"] }
      else
        { w with
          cutter := (w.ch.support.Cut w.cutter).2
          timer := none
          trace := w.trace ++ [Action.timerNil, Action.Cut (w.ch.support.Cut w.cutter).1,
            Action.Debugf "Batch timer expired, creating block",
            Action.Append (w.ch.support.Cut w.cutter).1 none] }) := by
  unfold chain.onTimer
  rcases h : w.ch.support.Cut w.cutter with ⟨batch, k'⟩
  cases batch <;> simp [h]

/-- The three ways an iteration of the loop can run. -/
theorem mainStep_cases {κ : Type} (w : World κ) (e : Event) (w' : World κ)
    (h : chain.mainStep w e = some w') :
    w.main = .looping ∧
    ((∃ msg now, e = .recv msg now ∧ w' = chain.onMsg w msg now) ∨
     (∃ now deadline, e = .timer now ∧ w.timer = some deadline ∧ deadline ≤ now ∧
        w' = chain.onTimer w) ∨
     (e = .exit ∧ w.ch.exitChan.closed = true ∧ w' = chain.onExit w)) := by
  cases e with
  | recv msg now =>
    by_cases hloop : w.main = .looping
    · simp only [chain.mainStep, hloop, if_true, Option.some.injEq] at h
      exact ⟨hloop, Or.inl ⟨msg, now, rfl, h.symm⟩⟩
    · simp [chain.mainStep, hloop] at h
  | timer now =>
    cases ht : w.timer with
    | none => simp [chain.mainStep, ht] at h
    | some deadline =>
      by_cases hg : w.main = .looping ∧ deadline ≤ now
      · simp only [chain.mainStep, ht, hg, and_self, if_true, Option.some.injEq] at h
        exact ⟨hg.1, Or.inr (Or.inl ⟨now, deadline, rfl, rfl, hg.2, h.symm⟩)⟩
      · simp [chain.mainStep, ht, hg] at h
  | exit =>
    by_cases hg : w.main = .looping ∧ w.ch.exitChan.closed = true
    · simp only [chain.mainStep, hg, and_self, if_true, Option.some.injEq] at h
      exact ⟨hg.1, Or.inr (Or.inr ⟨rfl, hg.2, h.symm⟩)⟩
    · simp [chain.mainStep, hg] at h

/-- An iteration of the loop leaves the struct `chain` as it is. -/
theorem mainStep_ch {κ : Type} (w : World κ) (e : Event) (w' : World κ)
    (h : chain.mainStep w e = some w') : w'.ch = w.ch := by
  obtain ⟨_, h | h | h⟩ := mainStep_cases w e w' h
  · obtain ⟨msg, now, _, rfl⟩ := h
    rw [onMsg_eq]
    split_ifs <;> rfl
  · obtain ⟨now, deadline, _, _, _, rfl⟩ := h
    rw [onTimer_eq]
    split_ifs <;> rfl
  · obtain ⟨_, _, rfl⟩ := h
    rfl

/-- Every iteration keeps: an armed timer means a pending batch; and, for a
block cutter that holds nothing after handing out batches, a pending batch
means an armed timer. -/
theorem mainStep_timer_pending {κ : Type} (support : ConsenterSupport κ) (pending : κ → Batch)
    (hc : CutterContract support pending) (w : World κ) (e : Event) (w' : World κ)
    (hinv : w.ch.support = support ∧
      (w.timer.isSome = true → pending w.cutter ≠ []) ∧
      ((∀ k msg, (support.Ordered k msg).1.1 ≠ [] → pending (support.Ordered k msg).2 = []) →
        pending w.cutter ≠ [] → w.timer.isSome = true))
    (hstep : chain.mainStep w e = some w') :
    w'.ch.support = support ∧
      (w'.timer.isSome = true → pending w'.cutter ≠ []) ∧
      ((∀ k msg, (support.Ordered k msg).1.1 ≠ [] → pending (support.Ordered k msg).2 = []) →
        pending w'.cutter ≠ [] → w'.timer.isSome = true) := by
  obtain ⟨hs, h1, h2⟩ := hinv
  refine ⟨by rw [mainStep_ch w e w' hstep, hs], ?_⟩
  obtain ⟨_, h | h | h⟩ := mainStep_cases w e w' hstep
  · obtain ⟨msg, now, _, rfl⟩ := h
    rw [onMsg_eq, hs]
    by_cases hcase : (support.Ordered w.cutter msg).1.2 = true ∧
        (support.Ordered w.cutter msg).1.1 = [] ∧ w.timer = none
    · rw [if_pos hcase]
      have hb := hc.buffered w.cutter msg (Prod.ext hcase.2.1 hcase.1)
      simp [hb]
    · rw [if_neg hcase]
      by_cases hbs : (support.Ordered w.cutter msg).1.1 = []
      · rw [if_pos hbs]
        cases hok : (support.Ordered w.cutter msg).1.2 with
        | false =>
          have hr := hc.rejected w.cutter msg hok
          simp only [hr]
          exact ⟨h1, h2⟩
        | true =>
          have hb := hc.buffered w.cutter msg (Prod.ext hbs hok)
          have ht : w.timer.isSome = true := by
            cases hw : w.timer with
            | none => exact absurd ⟨hok, hbs, hw⟩ hcase
            | some t => rfl
          simp [hb, ht]
      · rw [if_neg hbs]
        refine ⟨by simp, ?_⟩
        intro hres hp
        exact absurd (hres w.cutter msg hbs) hp
  · obtain ⟨now, deadline, _, _, _, rfl⟩ := h
    rw [onTimer_eq, hs]
    have hf := (hc.flushed w.cutter).2
    split_ifs <;> simp [hf]
  · obtain ⟨_, _, rfl⟩ := h
    exact ⟨h1, h2⟩

/-- The overflow cutter satisfies the contract of the batch cutter. -/
theorem overflowCutter_contract (size : Nat) :
    CutterContract (overflowCutter size) (fun pending => pending) where
  rejected := by
    intro k msg h
    by_cases hk : k.length < size <;> simp [overflowCutter, hk] at h
  buffered := by
    intro k msg h
    by_cases hk : k.length < size <;> simp [overflowCutter, hk] at h ⊢
  flushed := by
    intro k
    simp [overflowCutter]

/-- The count cutter satisfies the contract of the batch cutter. -/
theorem countCutter_contract (size : Nat) :
    CutterContract (countCutter size) (fun pending => pending) where
  rejected := by
    intro k msg h
    by_cases hk : k.length + 1 < size <;> simp [countCutter, hk] at h
  buffered := by
    intro k msg h
    by_cases hk : k.length + 1 < size
    · simp [countCutter, hk]
    · simp [countCutter, hk] at h
  flushed := by
    intro k
    simp [countCutter]

/-- C6, as stated, fails: the overflow cutter of size 1 satisfies the contract
and holds nothing at the beginning; the first envelope is buffered and arms the
timer, the second one makes the cutter hand out `[1]` and keep `[2]` pending,
and the loop sets the timer to `nil`: a batch is pending and no timer is
armed. -/
theorem timer_nil_with_pending_batch :
    CutterContract (overflowCutter 1) (fun pending => pending) ∧
    (execute 10 (overflowCutter 1) [] [.recv 1 0, .recv 2 3]).map
        (fun w => (w.timer, w.cutter, w.trace)) =
      some (none, [2],
        [Action.Ordered 1 [] true, Action.timerSet 10,
         Action.Ordered 2 [[1]] true, Action.Append [1] none, Action.timerNil]) :=
  ⟨overflowCutter_contract 1, rfl⟩

/-- C6, amended: in every execution of the loop from a fresh chain against a
block cutter that satisfies the contract and starts with nothing pending, after
every completed step an armed timer means that the cutter holds a pending
batch; and when the cutter moreover holds nothing after an `Ordered` that
returned a non-empty batch list, the timer is armed if and only if the cutter
holds a pending batch. -/
theorem timer_armed_iff_pending {κ : Type} (d : Duration) (support : ConsenterSupport κ)
    (pending : κ → Batch) (k : κ) (evs : List Event) (w : World κ)
    (hc : CutterContract support pending) (hk : pending k = [])
    (hrun : execute d support k evs = some w) :
    (w.timer.isSome = true → pending w.cutter ≠ []) ∧
    ((∀ k msg, (support.Ordered k msg).1.1 ≠ [] → pending (support.Ordered k msg).2 = []) →
      (w.timer.isSome = true ↔ pending w.cutter ≠ [])) := by
  rw [execute_eq] at hrun
  have hinv := main_preserves
    (fun w : World κ => w.ch.support = support ∧
      (w.timer.isSome = true → pending w.cutter ≠ []) ∧
      ((∀ k msg, (support.Ordered k msg).1.1 ≠ [] → pending (support.Ordered k msg).2 = []) →
        pending w.cutter ≠ [] → w.timer.isSome = true))
    (mainStep_timer_pending support pending hc) evs _ w
    ⟨rfl, by simp, by intro _ h; exact absurd hk h⟩ hrun
  exact ⟨hinv.2.1, fun hres => ⟨hinv.2.1, hinv.2.2 hres⟩⟩

/-- The count cutter holds nothing after it has handed out a batch. -/
theorem countCutter_resolved (size : Nat) (k : Batch) (msg : Envelope)
    (h : ((countCutter size).Ordered k msg).1.1 ≠ []) :
    ((countCutter size).Ordered k msg).2 = [] := by
  by_cases hk : k.length + 1 < size
  · simp [countCutter, hk] at h
  · simp [countCutter, hk]

/-- Witness for C6 (amended): the count cutter of size 2, driven by
an envelope, a timer expiry and another envelope, ends with envelope 2 pending
and the timer armed. -/
theorem timer_armed_iff_pending_witness :
    ((some 25 : Option Time).isSome = true → ([2] : Batch) ≠ []) ∧
    ((some 25 : Option Time).isSome = true ↔ ([2] : Batch) ≠ []) :=
  have h := timer_armed_iff_pending 10 (countCutter 2) (fun pending => pending) []
    [.recv 1 0, .timer 12, .recv 2 15]
    { ch := newChain 10 (countCutter 2), main := .looping, timer := some 25, cutter := [2],
      trace := [Action.Ordered 1 [] true, Action.timerSet 10, Action.timerNil, Action.Cut [1],
        Action.Debugf "Batch timer expired, creating block", Action.Append [1] none,
        Action.Ordered 2 [] true, Action.timerSet 25] }
    (countCutter_contract 2) rfl rfl
  ⟨h.1, h.2 (countCutter_resolved 2)⟩

/-! ## The order of the appends -/

theorem appended_append (s t : List Action) : appended (s ++ t) = appended s ++ appended t := by
  simp [appended, List.filterMap_append]

theorem appended_appends (batches : List Batch) :
    appended (batches.map (fun batch => Action.Append batch none)) = batches := by
  induction batches with
  | nil => rfl
  | cons b bs ih =>
    simp only [appended] at ih
    simp [appended, ih]

/-- The loop run over `evs` adds to the appended batches exactly the batches
the block cutter hands out on `evs`. -/
theorem main_appended {κ : Type} (evs : List Event) :
    ∀ (w w' : World κ), chain.main w evs = some w' →
      appended w'.trace = appended w.trace ++ returnedBatches w.ch.support w.cutter evs := by
  induction evs with
  | nil =>
    intro w w' h
    simp only [chain.main, Option.some.injEq] at h
    subst h
    simp [returnedBatches]
  | cons e es ih =>
    intro w w' h
    simp only [chain.main, Option.bind_eq_some] at h
    obtain ⟨w1, h1, h2⟩ := h
    have hrest := ih w1 w' h2
    rw [mainStep_ch w e w1 h1] at hrest
    rw [hrest]
    obtain ⟨_, hcase | hcase | hcase⟩ := mainStep_cases w e w1 h1
    · obtain ⟨msg, now, rfl, rfl⟩ := hcase
      rw [onMsg_eq]
      by_cases hc : (w.ch.support.Ordered w.cutter msg).1.2 = true ∧
          (w.ch.support.Ordered w.cutter msg).1.1 = [] ∧ w.timer = none
      · rw [if_pos hc]
        simp [returnedBatches, appended_append, hc.2.1, appended]
      · rw [if_neg hc]
        by_cases hb : (w.ch.support.Ordered w.cutter msg).1.1 = []
        · rw [if_pos hb]
          simp [returnedBatches, appended_append, hb, appended]
        · rw [if_neg hb]
          simp only [returnedBatches, appended_append, appended_appends]
          simp [appended]
    · obtain ⟨now, deadline, rfl, _, _, rfl⟩ := hcase
      rw [onTimer_eq]
      by_cases hb : (w.ch.support.Cut w.cutter).1 = []
      · rw [if_pos hb]
        simp [returnedBatches, appended_append, hb, appended]
      · rw [if_neg hb]
        simp [returnedBatches, appended_append, hb, appended]
    · obtain ⟨rfl, _, rfl⟩ := hcase
      simp [returnedBatches, chain.onExit, appended_append, appended]

/-- C7: for every finite sequence of loop events processed from a fresh chain,
the batches passed to `Writer().Append`, in call order, are the concatenation,
in event order, of the batch list returned by `Ordered` for each envelope and
of the batch returned by `Cut` for each timer expiry where it is not empty. -/
theorem appends_follow_cutter_results {κ : Type} (d : Duration)
    (support : ConsenterSupport κ) (k : κ) (evs : List Event) (w : World κ)
    (hrun : execute d support k evs = some w) :
    appended w.trace = returnedBatches support k evs := by
  rw [execute_eq] at hrun
  simpa [appended] using main_appended evs _ w hrun

/-- Witness for C7: with the count cutter of size 2,
envelope 1 is flushed by the timer and envelopes 2 and 3 fill a batch. -/
theorem appends_follow_cutter_results_witness :
    appended
      [Action.Ordered 1 [] true, Action.timerSet 10, Action.timerNil, Action.Cut [1],
        Action.Debugf "Batch timer expired, creating block", Action.Append [1] none,
        Action.Ordered 2 [] true, Action.timerSet 25,
        Action.Ordered 3 [[2, 3]] true, Action.Append [2, 3] none, Action.timerNil] =
      returnedBatches (countCutter 2) []
        [.recv 1 0, .timer 12, .recv 2 15, .recv 3 16] :=
  appends_follow_cutter_results 10 (countCutter 2) []
    [.recv 1 0, .timer 12, .recv 2 15, .recv 3 16]
    { ch := newChain 10 (countCutter 2), main := .looping, timer := none, cutter := [],
      trace := [Action.Ordered 1 [] true, Action.timerSet 10, Action.timerNil, Action.Cut [1],
        Action.Debugf "Batch timer expired, creating block", Action.Append [1] none,
        Action.Ordered 2 [] true, Action.timerSet 25,
        Action.Ordered 3 [[2, 3]] true, Action.Append [2, 3] none, Action.timerNil] }
    rfl

/-! ## Halt and Enqueue -/

/-- A property kept by every operation holds after any sequence of them. -/
theorem runOps_preserves {κ : Type} (P : World κ → Prop)
    (hstep : ∀ w op w', P w → applyOp w op = some w' → P w') :
    ∀ (ops : List Op) (w w' : World κ), P w → runOps w ops = some w' → P w' := by
  intro ops
  induction ops with
  | nil =>
    intro w w' hw h
    simp only [runOps, Option.some.injEq] at h
    exact h ▸ hw
  | cons op ops ih =>
    intro w w' hw h
    simp only [runOps, Option.bind_eq_some] at h
    obtain ⟨w1, h1, h2⟩ := h
    exact ih w1 w' (hstep w op w1 hw h1) h2

/-- The goroutine of `main` after an iteration: returned on the shutdown
signal, still looping otherwise. -/
theorem mainStep_main {κ : Type} (w : World κ) (e : Event) (w' : World κ)
    (h : chain.mainStep w e = some w') :
    w'.main = (if e = .exit then .returned else .looping) := by
  obtain ⟨hloop, hc | hc | hc⟩ := mainStep_cases w e w' h
  · obtain ⟨msg, now, rfl, rfl⟩ := hc
    rw [if_neg (by simp), onMsg_eq]
    split_ifs <;> exact hloop
  · obtain ⟨now, deadline, rfl, _, _, rfl⟩ := hc
    rw [if_neg (by simp), onTimer_eq]
    split_ifs <;> exact hloop
  · obtain ⟨rfl, _, rfl⟩ := hc
    simp [chain.onExit]

/-- What `Halt` returns: the same state when the signal is raised, the state
with `exitChan` closed otherwise; never a panic. -/
theorem Halt_eq {κ : Type} (w : World κ) :
    chain.Halt w =
      .ok (if w.ch.exitChan.closed = true then w
           else { w with ch := { w.ch with exitChan := { w.ch.exitChan with closed := true } } }) := by
  unfold chain.Halt closeChan
  cases h : w.ch.exitChan.closed <;> simp

/-- Every operation keeps the two channels' state apart from closing
`exitChan`, and the goroutine returns only on a closed `exitChan`. -/
theorem applyOp_signal {κ : Type} (w : World κ) (op : Op) (w' : World κ)
    (h : applyOp w op = some w') :
    (w.ch.exitChan.closed = true → w'.ch.exitChan.closed = true) ∧
    ((w.main = .returned → w.ch.exitChan.closed = true) →
      (w'.main = .returned → w'.ch.exitChan.closed = true)) := by
  cases op with
  | Start =>
    by_cases hs : w.main = .notStarted
    · simp only [applyOp, chain.Start, hs, if_true, Option.some.injEq] at h
      subst h
      simp
    · simp [applyOp, chain.Start, hs] at h
  | Halt =>
    simp only [applyOp, Halt_eq, Option.some.injEq] at h
    subst h
    split_ifs with hc <;> simp [hc]
  | Enqueue env now c =>
    cases c with
    | send =>
      cases h1 : chain.mainStep w (.recv env now) with
      | none => simp [applyOp, chain.Enqueue, h1] at h
      | some w1 =>
        have hw : w1 = w' := by simpa [applyOp, chain.Enqueue, h1] using h
        subst hw
        have hm := mainStep_main w _ w1 h1
        rw [mainStep_ch w _ w1 h1]
        simp [hm]
    | exit =>
      by_cases hc : w.ch.exitChan.closed = true
      · have hw : w = w' := by simpa [applyOp, chain.Enqueue, hc] using h
        subst hw
        simp [hc]
      · simp [applyOp, chain.Enqueue, hc] at h
  | timer now =>
    simp only [applyOp] at h
    have hm := mainStep_main w _ w' h
    rw [mainStep_ch w _ w' h]
    simp [hm]
  | exit =>
    simp only [applyOp] at h
    obtain ⟨_, hc | hc | hc⟩ := mainStep_cases w _ w' h
    · obtain ⟨_, _, hne, _⟩ := hc
      cases hne
    · obtain ⟨_, _, hne, _⟩ := hc
      cases hne
    · obtain ⟨_, hclosed, rfl⟩ := hc
      simp [chain.onExit, hclosed]

/-- C8: for every state of a chain, `Halt` does not fail and leaves the shutdown
signal raised; on a chain whose signal is already raised it returns the state
exactly as it was, so a second `Halt` changes nothing; and after `Halt` no
sequence of operations of the chain (`Start`, `Halt`, `Enqueue`, iterations of
the loop) lowers the signal again. -/
theorem halt_terminal_and_idempotent {κ : Type} (w : World κ) :
    ∃ w', chain.Halt w = .ok w' ∧
      w'.ch.exitChan.closed = true ∧
      (w.ch.exitChan.closed = true → w' = w) ∧
      chain.Halt w' = .ok w' ∧
      (∀ ops w'', runOps w' ops = some w'' → w''.ch.exitChan.closed = true) := by
  refine ⟨_, Halt_eq w, ?_, ?_, ?_, ?_⟩
  · split_ifs with hc <;> simp [hc]
  · intro hc
    simp [hc]
  · rw [Halt_eq]
    split_ifs with hc <;> simp [hc]
  · intro ops w'' hrun
    refine runOps_preserves (fun v : World κ => v.ch.exitChan.closed = true)
      (fun v op v' hv hop => (applyOp_signal v op v' hop).1 hv) ops _ w'' ?_ hrun
    split_ifs with hc <;> simp [hc]

/-- C9: in every state reached from a fresh chain by operations of the chain in
which the loop has returned, `Enqueue` cannot take its send case (no receiver)
and can take its shutdown case, so the call does not block and every
resolution of it returns `false`, for every envelope. -/
theorem enqueue_after_loop_returned {κ : Type} (d : Duration)
    (support : ConsenterSupport κ) (k : κ) (ops : List Op) (w : World κ)
    (hrun : runOps (World.ofChain ((New d).HandleChain support).1 k) ops = some w)
    (hret : w.main = .returned) (env : Envelope) (now : Time) :
    chain.EnqueueReady w = [EnqueueCase.exit] ∧
    chain.Enqueue w env now .send = none ∧
    chain.Enqueue w env now .exit = some (false, w) := by
  have hinv := runOps_preserves
    (fun v : World κ => v.main = .returned → v.ch.exitChan.closed = true)
    (fun v op v' hv hop => (applyOp_signal v op v' hop).2 hv) ops _ w
    (by simp [World.ofChain]) hrun
  have hclosed := hinv hret
  refine ⟨by simp [chain.EnqueueReady, hret, hclosed], ?_, by simp [chain.Enqueue, hclosed]⟩
  simp [chain.Enqueue, chain.mainStep, hret]

/-- Witness for C9: a chain is started, halted, and
its loop observes the shutdown signal; `Enqueue` then returns `false`. -/
theorem enqueue_after_loop_returned_witness :
    chain.EnqueueReady
        ({ ch := { newChain 10 (countCutter 2) with exitChan := { cap := 0, closed := true } },
           main := .returned, timer := none, cutter := [],
           trace := [Action.Debugf "Exiting"] } : World Batch) = [EnqueueCase.exit] ∧
    chain.Enqueue
        ({ ch := { newChain 10 (countCutter 2) with exitChan := { cap := 0, closed := true } },
           main := .returned, timer := none, cutter := [],
           trace := [Action.Debugf "Exiting"] } : World Batch) 7 5 .send = none ∧
    chain.Enqueue
        ({ ch := { newChain 10 (countCutter 2) with exitChan := { cap := 0, closed := true } },
           main := .returned, timer := none, cutter := [],
           trace := [Action.Debugf "Exiting"] } : World Batch) 7 5 .exit =
      some (false,
        { ch := { newChain 10 (countCutter 2) with exitChan := { cap := 0, closed := true } },
          main := .returned, timer := none, cutter := [],
          trace := [Action.Debugf "Exiting"] }) :=
  enqueue_after_loop_returned 10 (countCutter 2) [] [.Start, .Halt, .exit]
    { ch := { newChain 10 (countCutter 2) with exitChan := { cap := 0, closed := true } },
      main := .returned, timer := none, cutter := [],
      trace := [Action.Debugf "Exiting"] }
    rfl rfl 7 5

/-- Witness for C8: `Halt` on a running chain whose
signal is not yet raised. -/
theorem halt_terminal_and_idempotent_witness :
    ∃ w' : World Batch,
      chain.Halt { ch := newChain 10 (countCutter 2), main := .looping, timer := some 10,
                   cutter := [1], trace := [] } = .ok w' ∧
      w'.ch.exitChan.closed = true ∧
      ((newChain 10 (countCutter 2)).exitChan.closed = true →
        w' = { ch := newChain 10 (countCutter 2), main := .looping, timer := some 10,
               cutter := [1], trace := [] }) ∧
      chain.Halt w' = .ok w' ∧
      (∀ ops w'', runOps w' ops = some w'' → w''.ch.exitChan.closed = true) :=
  halt_terminal_and_idempotent
    { ch := newChain 10 (countCutter 2), main := .looping, timer := some 10,
      cutter := [1], trace := [] }

/-- The trace after the case of an envelope starts with the call of `Ordered`
on that envelope. -/
theorem onMsg_trace {κ : Type} (w : World κ) (msg : Envelope) (now : Time) :
    ∃ rest, (chain.onMsg w msg now).trace =
      w.trace ++ Action.Ordered msg (w.ch.support.Ordered w.cutter msg).1.1
        (w.ch.support.Ordered w.cutter msg).1.2 :: rest := by
  rw [onMsg_eq]
  split_ifs with h1 h2
  · exact ⟨[Action.timerSet (now + w.ch.batchTimeout)], by simp [h1.1, h1.2.1]⟩
  · exact ⟨[], by simp [h2]⟩
  · exact ⟨(w.ch.support.Ordered w.cutter msg).1.1.map (fun batch => Action.Append batch none)
      ++ [Action.timerNil], by simp⟩

/-- On a case of its `select` that can fire, `Enqueue` delivers a result:
`true` with the loop having run `Ordered` on the envelope for the send case,
`false` with the state unchanged for the shutdown case, the same value for
every block cutter. -/
theorem enqueue_ready_delivers {κ : Type} (w : World κ) (env : Envelope) (now : Time)
    (c : EnqueueCase) (hready : c ∈ chain.EnqueueReady w) :
    ∃ r w', chain.Enqueue w env now c = some (r, w') ∧
      (r = true ↔ c = .send) ∧
      (r = false ↔ c = .exit) ∧
      (c = .send →
        w' = chain.onMsg w env now ∧
        ∃ rest, w'.trace = w.trace ++
          Action.Ordered env (w.ch.support.Ordered w.cutter env).1.1
            (w.ch.support.Ordered w.cutter env).1.2 :: rest) ∧
      (c = .exit → w.ch.exitChan.closed = true ∧ w' = w) ∧
      (∀ support' : ConsenterSupport κ,
        (chain.Enqueue { w with ch := { w.ch with support := support' } } env now c).map
          (fun p => p.1) = some r) := by
  cases c with
  | send =>
    have hloop : w.main = .looping := by
      by_contra hn
      by_cases hc : w.ch.exitChan.closed = true <;>
        simp [chain.EnqueueReady, hn, hc] at hready
    refine ⟨true, chain.onMsg w env now, by simp [chain.Enqueue, chain.mainStep, hloop],
      by simp, by simp, ?_, by simp, ?_⟩
    · intro _
      exact ⟨rfl, onMsg_trace w env now⟩
    · intro support'
      simp [chain.Enqueue, chain.mainStep, hloop]
  | exit =>
    have hc : w.ch.exitChan.closed = true := by
      by_contra hn
      by_cases hloop : w.main = .looping <;>
        simp [chain.EnqueueReady, hn, hloop] at hready
    refine ⟨false, w, by simp [chain.Enqueue, hc], by simp, by simp, by simp,
      by simp [hc], ?_⟩
    intro support'
    simp [chain.Enqueue, hc]

/-- C10: a call of `Enqueue` delivers a result on exactly the cases of its
`select` that can fire, and on each of them it delivers one outcome: on the
send case it returns `true`, the loop having received the envelope and called
`Ordered` on it; on the shutdown case it returns `false` and nothing else
changes.  So the value is `true` exactly when the envelope was handed over and
`false` exactly when the shutdown signal was observed.  On either case the
value is the same for every block cutter, so it does not depend on what
`Ordered` decides. -/
theorem enqueue_one_outcome {κ : Type} (w : World κ) (env : Envelope) (now : Time)
    (c : EnqueueCase) :
    ((chain.Enqueue w env now c).isSome = true ↔ c ∈ chain.EnqueueReady w) ∧
    (c ∈ chain.EnqueueReady w →
      ∃ r w', chain.Enqueue w env now c = some (r, w') ∧
        (r = true ↔ c = .send) ∧
        (r = false ↔ c = .exit) ∧
        (c = .send →
          w' = chain.onMsg w env now ∧
          ∃ rest, w'.trace = w.trace ++
            Action.Ordered env (w.ch.support.Ordered w.cutter env).1.1
              (w.ch.support.Ordered w.cutter env).1.2 :: rest) ∧
        (c = .exit → w.ch.exitChan.closed = true ∧ w' = w) ∧
        (∀ support' : ConsenterSupport κ,
          (chain.Enqueue { w with ch := { w.ch with support := support' } } env now c).map
            (fun p => p.1) = some r)) ∧
    (w.main = .looping →
      chain.Enqueue w env now .send = some (true, chain.onMsg w env now)) ∧
    (w.ch.exitChan.closed = true → chain.Enqueue w env now .exit = some (false, w)) := by
  refine ⟨?_, ?_, fun hloop => by simp [chain.Enqueue, chain.mainStep, hloop],
    fun hc => by simp [chain.Enqueue, hc]⟩
  · cases c with
    | send =>
      by_cases hloop : w.main = .looping
      · simp [chain.Enqueue, chain.mainStep, chain.EnqueueReady, hloop]
      · by_cases hc : w.ch.exitChan.closed = true <;>
          simp [chain.Enqueue, chain.mainStep, chain.EnqueueReady, hloop, hc]
    | exit =>
      by_cases hc : w.ch.exitChan.closed = true
      · simp [chain.Enqueue, chain.EnqueueReady, hc]
      · by_cases hloop : w.main = .looping <;>
          simp [chain.Enqueue, chain.EnqueueReady, hloop, hc]
  · exact enqueue_ready_delivers w env now c

/-- Witness for C10: on a running chain with the timer armed, `Enqueue` hands
envelope 1 over and returns `true` although `Ordered` then rejects the
envelope; on a halted chain with the loop still running, an `Enqueue` that
takes the shutdown case returns `false` and changes nothing. -/
theorem enqueue_one_outcome_witness :
    chain.Enqueue
        ({ ch := newChain 10 (scripted [([], false)] []), main := .looping, timer := some 10,
           cutter := (0, 0), trace := [] } : World (Nat × Nat)) 1 3 .send =
      some (true,
        { ch := newChain 10 (scripted [([], false)] []), main := .looping, timer := some 10,
          cutter := (1, 0), trace := [Action.Ordered 1 [] false] }) ∧
    chain.Enqueue
        ({ ch := { newChain 10 (scripted [([], false)] []) with
                   exitChan := { cap := 0, closed := true } },
           main := .looping, timer := some 10, cutter := (0, 0), trace := [] } :
          World (Nat × Nat)) 9 17 .exit =
      some (false,
        { ch := { newChain 10 (scripted [([], false)] []) with
                  exitChan := { cap := 0, closed := true } },
          main := .looping, timer := some 10, cutter := (0, 0), trace := [] }) := by
  constructor
  · obtain ⟨r, w', h, hr, _, hs, _, _⟩ :=
      (enqueue_one_outcome
        ({ ch := newChain 10 (scripted [([], false)] []), main := .looping, timer := some 10,
           cutter := (0, 0), trace := [] } : World (Nat × Nat)) 1 3 .send).2.1
        (by simp [chain.EnqueueReady])
    rw [h, hr.mpr rfl, (hs rfl).1]
    rfl
  · obtain ⟨r, w', h, _, hr, _, he, _⟩ :=
      (enqueue_one_outcome
        ({ ch := { newChain 10 (scripted [([], false)] []) with
                   exitChan := { cap := 0, closed := true } },
           main := .looping, timer := some 10, cutter := (0, 0), trace := [] } :
          World (Nat × Nat)) 9 17 .exit).2.1
        (by simp [chain.EnqueueReady])
    rw [h, hr.mpr rfl, (he rfl).2]

/-! ## Shutdown of the loop -/

/-- Running two sequences of operations one after the other. -/
theorem runOps_append {κ : Type} (ops1 ops2 : List Op) :
    ∀ w : World κ, runOps w (ops1 ++ ops2) = (runOps w ops1).bind (fun w' => runOps w' ops2) := by
  induction ops1 with
  | nil => intro w; simp [runOps]
  | cons op ops ih =>
    intro w
    cases h : applyOp w op with
    | none => simp [runOps, h]
    | some w1 => simp [runOps, h, ih]

/-- Once `main` has returned, no operation of the chain adds to the trace or
brings the goroutine back. -/
theorem applyOp_returned {κ : Type} (w : World κ) (op : Op) (w' : World κ)
    (hret : w.main = .returned) (h : applyOp w op = some w') :
    w'.main = .returned ∧ w'.trace = w.trace := by
  cases op with
  | Start => simp [applyOp, chain.Start, hret] at h
  | Halt =>
    simp only [applyOp, Halt_eq, Option.some.injEq] at h
    subst h
    split_ifs <;> exact ⟨hret, rfl⟩
  | Enqueue env now c =>
    cases c with
    | send => simp [applyOp, chain.Enqueue, chain.mainStep, hret] at h
    | exit =>
      by_cases hc : w.ch.exitChan.closed = true
      · have hw : w = w' := by simpa [applyOp, chain.Enqueue, hc] using h
        subst hw
        exact ⟨hret, rfl⟩
      · simp [applyOp, chain.Enqueue, hc] at h
  | timer now =>
    simp only [applyOp] at h
    have hl := (mainStep_cases w _ w' h).1
    rw [hret] at hl
    cases hl
  | exit =>
    simp only [applyOp] at h
    have hl := (mainStep_cases w _ w' h).1
    rw [hret] at hl
    cases hl

/-- Calls of `Start` and `Halt` leave the trace as it is. -/
theorem runOps_start_halt_trace {κ : Type} (ops : List Op) :
    ∀ (w w' : World κ), (∀ o ∈ ops, o = Op.Start ∨ o = Op.Halt) →
      runOps w ops = some w' → w'.trace = w.trace := by
  induction ops with
  | nil =>
    intro w w' _ h
    simp only [runOps, Option.some.injEq] at h
    rw [h]
  | cons op ops ih =>
    intro w w' hall h
    simp only [runOps, Option.bind_eq_some] at h
    obtain ⟨w1, h1, h2⟩ := h
    have hrest := ih w1 w' (fun o ho => hall o (List.mem_cons_of_mem op ho)) h2
    rw [hrest]
    rcases hall op (List.mem_cons_self op ops) with rfl | rfl
    · by_cases hs : w.main = .notStarted
      · simp only [applyOp, chain.Start, hs, if_true, Option.some.injEq] at h1
        rw [← h1]
      · simp [applyOp, chain.Start, hs] at h1
    · simp only [applyOp, Halt_eq, Option.some.injEq] at h1
      rw [← h1]
      split_ifs <;> rfl

/-- C11: in every execution from a fresh chain, the step in which the loop
observes the shutdown signal records only the debug line and returns from
`main`; whatever operations follow, the goroutine stays returned and the trace
stays as it is (no `Ordered`, `Cut`, `Append` or warning is added), and the
loop takes no further event.  When only `Start` and `Halt` were called before
that step, the whole execution has zero `Append` calls and zero warnings. -/
theorem loop_exits_permanently {κ : Type} (d : Duration) (support : ConsenterSupport κ)
    (k : κ) (ops0 ops : List Op) (w' : World κ)
    (hrun : runOps (World.ofChain ((New d).HandleChain support).1 k)
      (ops0 ++ [Op.exit] ++ ops) = some w') :
    ∃ w0, runOps (World.ofChain ((New d).HandleChain support).1 k) ops0 = some w0 ∧
      w'.main = .returned ∧
      w'.trace = w0.trace ++ [Action.Debugf "Exiting"] ∧
      (∀ e es, chain.main w' (e :: es) = none) ∧
      ((∀ o ∈ ops0, o = Op.Start ∨ o = Op.Halt) →
        w'.trace = [Action.Debugf "Exiting"] ∧
        w'.trace.countP Action.isAppend = 0 ∧ w'.trace.countP Action.isWarning = 0) := by
  rw [List.append_assoc, runOps_append] at hrun
  simp only [Option.bind_eq_some] at hrun
  obtain ⟨w0, h0, hrest⟩ := hrun
  simp only [List.singleton_append, runOps, applyOp, Option.bind_eq_some] at hrest
  obtain ⟨w1, h1, h2⟩ := hrest
  obtain ⟨_, hc | hc | hc⟩ := mainStep_cases w0 _ w1 h1
  · obtain ⟨_, _, hne, _⟩ := hc
    cases hne
  · obtain ⟨_, _, hne, _⟩ := hc
    cases hne
  · obtain ⟨_, _, rfl⟩ := hc
    have hfrozen := runOps_preserves
      (fun v : World κ => v.main = .returned ∧ v.trace = (chain.onExit w0).trace)
      (fun v op v' hv hop => by
        have := applyOp_returned v op v' hv.1 hop
        exact ⟨this.1, this.2.trans hv.2⟩)
      ops _ w' ⟨rfl, rfl⟩ h2
    have htrace : w'.trace = w0.trace ++ [Action.Debugf "Exiting"] := hfrozen.2
    refine ⟨w0, h0, hfrozen.1, htrace, ?_, ?_⟩
    · intro e es
      cases e with
      | recv msg now => simp [chain.main, chain.mainStep, hfrozen.1]
      | timer now => cases ht : w'.timer <;> simp [chain.main, chain.mainStep, hfrozen.1, ht]
      | exit => simp [chain.main, chain.mainStep, hfrozen.1]
    · intro hall
      have hnil : w0.trace = [] := by
        have := runOps_start_halt_trace ops0 _ w0 hall h0
        simpa [World.ofChain] using this
      rw [htrace, hnil]
      simp [Action.isAppend, Action.isWarning]

/-- Witness for C11: `Halt` is called on a fresh chain before any `Enqueue`, the
loop is started and its first event is the shutdown signal; a later `Halt` and
a later `Enqueue` change nothing. -/
theorem loop_exits_permanently_witness :
    ∃ w0 : World Batch,
      runOps (World.ofChain ((New 10).HandleChain (countCutter 2)).1 []) [.Halt, .Start] =
        some w0 ∧
      Goroutine.returned = .returned ∧
      [Action.Debugf "Exiting"] = w0.trace ++ [Action.Debugf "Exiting"] ∧
      (∀ e es,
        chain.main
          ({ ch := { newChain 10 (countCutter 2) with exitChan := { cap := 0, closed := true } },
             main := .returned, timer := none, cutter := [],
             trace := [Action.Debugf "Exiting"] } : World Batch) (e :: es) = none) ∧
      ((∀ o ∈ [Op.Halt, Op.Start], o = Op.Start ∨ o = Op.Halt) →
        [Action.Debugf "Exiting"] = [Action.Debugf "Exiting"] ∧
        [Action.Debugf "Exiting"].countP Action.isAppend = 0 ∧
        [Action.Debugf "Exiting"].countP Action.isWarning = 0) :=
  loop_exits_permanently 10 (countCutter 2) [] [.Halt, .Start] [.Halt, .Enqueue 1 5 .exit]
    { ch := { newChain 10 (countCutter 2) with exitChan := { cap := 0, closed := true } },
      main := .returned, timer := none, cutter := [],
      trace := [Action.Debugf "Exiting"] }
    rfl

/-! ## The factory -/

/-- C13: for every `batchTimeout` `d` and every support `s`,
`New(d).HandleChain(s)` returns a `nil` error and a chain whose `batchTimeout`
is `d` and whose `support` is `s`; no loop has been started for it (an
`Enqueue` on it has no case that can fire), its `exitChan` is open, and its
`sendChan` has capacity zero. -/
theorem handleChain_returns_idle_chain {κ : Type} (d : Duration) (s : ConsenterSupport κ)
    (k : κ) :
    ((New d).HandleChain s).2 = none ∧
    ((New d).HandleChain s).1.batchTimeout = d ∧
    ((New d).HandleChain s).1.support = s ∧
    (World.ofChain ((New d).HandleChain s).1 k).main = .notStarted ∧
    chain.EnqueueReady (World.ofChain ((New d).HandleChain s).1 k) = [] ∧
    ((New d).HandleChain s).1.exitChan.closed = false ∧
    ((New d).HandleChain s).1.sendChan.cap = 0 :=
  ⟨rfl, rfl, rfl, rfl, rfl, rfl, rfl⟩

/-! ## First in, first out -/

theorem orderedCalls_append (s t : List Action) :
    orderedCalls (s ++ t) = orderedCalls s ++ orderedCalls t := by
  simp [orderedCalls, List.filterMap_append]

theorem orderedCalls_appends (batches : List Batch) :
    orderedCalls (batches.map (fun batch => Action.Append batch none)) = [] := by
  induction batches with
  | nil => rfl
  | cons b bs ih =>
    simp only [orderedCalls] at ih
    simp [orderedCalls, ih]

/-- An iteration of the loop calls `Ordered` once, on the envelope received,
when the event is an envelope, and not at all otherwise. -/
theorem mainStep_orderedCalls {κ : Type} (w : World κ) (e : Event) (w' : World κ)
    (h : chain.mainStep w e = some w') :
    orderedCalls w'.trace = orderedCalls w.trace ++ e.received := by
  obtain ⟨_, hc | hc | hc⟩ := mainStep_cases w e w' h
  · obtain ⟨msg, now, rfl, rfl⟩ := hc
    rw [onMsg_eq]
    split_ifs <;> simp [orderedCalls_append, orderedCalls_appends, Event.received] <;>
      simp [orderedCalls]
  · obtain ⟨now, deadline, rfl, _, _, rfl⟩ := hc
    rw [onTimer_eq]
    split_ifs <;> simp [orderedCalls_append, Event.received] <;> simp [orderedCalls]
  · obtain ⟨rfl, _, rfl⟩ := hc
    simp [chain.onExit, orderedCalls_append, orderedCalls, Event.received]

theorem handedOver_cons (op : Op) (ops : List Op) :
    handedOver (op :: ops) = handedOver [op] ++ handedOver ops := by
  simp only [handedOver, ← List.filterMap_append, List.singleton_append]

/-- An operation of the chain adds a call of `Ordered` exactly when it is an
`Enqueue` that hands its envelope over. -/
theorem applyOp_orderedCalls {κ : Type} (w : World κ) (op : Op) (w' : World κ)
    (h : applyOp w op = some w') :
    orderedCalls w'.trace = orderedCalls w.trace ++ handedOver [op] := by
  cases op with
  | Start =>
    by_cases hs : w.main = .notStarted
    · simp only [applyOp, chain.Start, hs, if_true, Option.some.injEq] at h
      subst h
      simp [handedOver]
    · simp [applyOp, chain.Start, hs] at h
  | Halt =>
    simp only [applyOp, Halt_eq, Option.some.injEq] at h
    subst h
    split_ifs <;> simp [handedOver]
  | Enqueue env now c =>
    cases c with
    | send =>
      cases h1 : chain.mainStep w (.recv env now) with
      | none => simp [applyOp, chain.Enqueue, h1] at h
      | some w1 =>
        have hw : w1 = w' := by simpa [applyOp, chain.Enqueue, h1] using h
        subst hw
        simpa [handedOver, Event.received] using mainStep_orderedCalls w _ w1 h1
    | exit =>
      by_cases hc : w.ch.exitChan.closed = true
      · have hw : w = w' := by simpa [applyOp, chain.Enqueue, hc] using h
        subst hw
        simp [handedOver]
      · simp [applyOp, chain.Enqueue, hc] at h
  | timer now =>
    simp only [applyOp] at h
    simpa [handedOver, Event.received] using mainStep_orderedCalls w _ w' h
  | exit =>
    simp only [applyOp] at h
    simpa [handedOver, Event.received] using mainStep_orderedCalls w _ w' h

theorem runOps_orderedCalls {κ : Type} (ops : List Op) :
    ∀ (w w' : World κ), runOps w ops = some w' →
      orderedCalls w'.trace = orderedCalls w.trace ++ handedOver ops := by
  induction ops with
  | nil =>
    intro w w' h
    simp only [runOps, Option.some.injEq] at h
    subst h
    simp [handedOver]
  | cons op ops ih =>
    intro w w' h
    simp only [runOps, Option.bind_eq_some] at h
    obtain ⟨w1, h1, h2⟩ := h
    rw [ih w1 w' h2, applyOp_orderedCalls w op w1 h1, handedOver_cons op ops,
      List.append_assoc]

/-- C12: in every execution from a fresh chain, the envelopes on which `Ordered`
is called, in call order, are exactly the envelopes of the `Enqueue` calls that
handed over (the ones that returned `true`), in handoff order: one call per
envelope, none skipped, duplicated or reordered. -/
theorem ordered_calls_are_fifo {κ : Type} (d : Duration) (support : ConsenterSupport κ)
    (k : κ) (ops : List Op) (w : World κ)
    (hrun : runOps (World.ofChain ((New d).HandleChain support).1 k) ops = some w) :
    orderedCalls w.trace = handedOver ops := by
  simpa [World.ofChain, orderedCalls] using runOps_orderedCalls ops _ w hrun

/-- Witness for C12: three envelopes are handed over around a timer expiry; a
fourth `Enqueue` after `Halt` takes the shutdown case and its envelope never
reaches the cutter. -/
theorem ordered_calls_are_fifo_witness :
    orderedCalls
      [Action.Ordered 5 [] true, Action.timerSet 10, Action.timerNil, Action.Cut [5],
        Action.Debugf "Batch timer expired, creating block", Action.Append [5] none,
        Action.Ordered 3 [] true, Action.timerSet 25,
        Action.Ordered 4 [[3, 4]] true, Action.Append [3, 4] none, Action.timerNil] =
      handedOver [.Start, .Enqueue 5 0 .send, .timer 12, .Enqueue 3 15 .send,
        .Enqueue 4 16 .send, .Halt, .Enqueue 9 17 .exit] :=
  ordered_calls_are_fifo 10 (countCutter 2) []
    [.Start, .Enqueue 5 0 .send, .timer 12, .Enqueue 3 15 .send, .Enqueue 4 16 .send,
      .Halt, .Enqueue 9 17 .exit]
    { ch := { newChain 10 (countCutter 2) with exitChan := { cap := 0, closed := true } },
      main := .looping, timer := none, cutter := [],
      trace := [Action.Ordered 5 [] true, Action.timerSet 10, Action.timerNil, Action.Cut [5],
        Action.Debugf "Batch timer expired, creating block", Action.Append [5] none,
        Action.Ordered 3 [] true, Action.timerSet 25,
        Action.Ordered 4 [[3, 4]] true, Action.Append [3, 4] none, Action.timerNil] }
    rfl

/-! ## The accepted flag -/

/-- C16: for an envelope event in which the batch list is non-empty or the timer
is already armed, the step taken when `Ordered` returns that batch list with
`accepted = true` and the step taken when it returns it with `accepted = false`
call `Append` on the same batches and end with the same timer. -/
theorem accepted_flag_matters_only_for_arming {κ : Type} (w : World κ)
    (support' : ConsenterSupport κ) (msg : Envelope) (now : Time) (batches : List Batch)
    (k1 k2 : κ) (hloop : w.main = .looping)
    (htrue : w.ch.support.Ordered w.cutter msg = ((batches, true), k1))
    (hfalse : support'.Ordered w.cutter msg = ((batches, false), k2))
    (hcase : batches ≠ [] ∨ w.timer.isSome = true) :
    ∃ w1 w2,
      chain.mainStep w (.recv msg now) = some w1 ∧
      chain.mainStep { w with ch := { w.ch with support := support' } } (.recv msg now) =
        some w2 ∧
      w1.timer = w2.timer ∧
      appended w1.trace = appended w.trace ++ batches ∧
      appended w2.trace = appended w.trace ++ batches := by
  refine ⟨chain.onMsg w msg now,
    chain.onMsg { w with ch := { w.ch with support := support' } } msg now,
    by simp [chain.mainStep, hloop], by simp [chain.mainStep, hloop], ?_⟩
  rw [onMsg_eq, onMsg_eq]
  simp only [htrue, hfalse]
  by_cases hb : batches = []
  · have ht : w.timer ≠ none := by
      rcases hcase with h | h
      · exact absurd hb h
      · intro hn
        simp [hn] at h
    simp [hb, ht, appended_append, appended]
  · simp only [hb, and_false, false_and, if_false, appended_append, appended_appends]
    simp [appended]

/-- Witness for C16: the timer is armed and `Ordered` returns one batch, once
with `accepted = true` and once with `accepted = false`. -/
theorem accepted_flag_matters_only_for_arming_witness :
    ∃ w1 w2 : World (Nat × Nat),
      chain.mainStep
        { ch := newChain 10 (scripted [([[1, 2]], true)] []), main := .looping,
          timer := some 10, cutter := (0, 0), trace := [] } (.recv 2 3) = some w1 ∧
      chain.mainStep
        { ch := { newChain 10 (scripted [([[1, 2]], true)] []) with
                  support := scripted [([[1, 2]], false)] [] },
          main := .looping, timer := some 10, cutter := (0, 0), trace := [] } (.recv 2 3) =
        some w2 ∧
      w1.timer = w2.timer ∧
      appended w1.trace = appended [] ++ [[1, 2]] ∧
      appended w2.trace = appended [] ++ [[1, 2]] :=
  accepted_flag_matters_only_for_arming
    { ch := newChain 10 (scripted [([[1, 2]], true)] []), main := .looping,
      timer := some 10, cutter := (0, 0), trace := [] }
    (scripted [([[1, 2]], false)] []) 2 3 [[1, 2]] (1, 0) (1, 0) rfl rfl rfl
    (Or.inl (by decide))

/-! ## Concurrent Halt -/

/-- A goroutine that runs `Halt` alone, select then close, ends as the method
`Halt` does: returned, with `exitChan` closed. -/
theorem haltInterleaved_alone {κ : Type} (w : World κ) :
    ∃ w', chain.Halt w = .ok w' ∧
      chain.haltInterleaved w.ch.exitChan [.atSelect] [0, 0] =
        (w'.ch.exitChan, [.returned]) := by
  refine ⟨_, Halt_eq w, ?_⟩
  cases hc : w.ch.exitChan.closed <;>
    simp [chain.haltInterleaved, chain.haltStep, closeChan, hc]

/-- C14, the code at the failing input: two goroutines call `Halt` on a fresh
chain.  Run one after the other, both return.  Interleaved so that both
evaluate the `select` before either closes, both enter the `default` case; the
first `close(ch.exitChan)` succeeds and the second one panics. -/
theorem concurrent_halts_close_twice :
    chain.haltInterleaved ((New 10).HandleChain (countCutter 2)).1.exitChan
        [.atSelect, .atSelect] [0, 0, 1, 1] =
      ({ cap := 0, closed := true }, [.returned, .returned]) ∧
    chain.haltInterleaved ((New 10).HandleChain (countCutter 2)).1.exitChan
        [.atSelect, .atSelect] [0, 1] =
      ({ cap := 0, closed := false }, [.atClose, .atClose]) ∧
    chain.haltInterleaved ((New 10).HandleChain (countCutter 2)).1.exitChan
        [.atSelect, .atSelect] [0, 1, 0, 1] =
      ({ cap := 0, closed := true }, [.returned, .panicked]) := by
  refine ⟨?_, ?_, ?_⟩ <;> decide

/-! ## Cut and the armed timer -/

theorem scan_append {σ : Type} (δ : σ → Action → Option σ) (s t : List Action) :
    ∀ st, scan δ st (s ++ t) = (scan δ st s).bind (fun st' => scan δ st' t) := by
  induction s with
  | nil => intro st; simp [scan]
  | cons a s ih =>
    intro st
    cases h : δ st a with
    | none => simp [scan, h]
    | some st' => simp [scan, h, ih]

theorem scan_fired_appends (cur : Option Time) (batches : List Batch) :
    scan firedStep (cur, false) (batches.map (fun batch => Action.Append batch none)) =
      some (cur, false) := by
  induction batches with
  | nil => simp [scan]
  | cons b bs ih => simpa [scan, firedStep] using ih

theorem scan_resolved_appends (z : Bool) (batches : List Batch) :
    scan resolvedStep z (batches.map (fun batch => Action.Append batch none)) = some z := by
  induction batches with
  | nil => simp [scan]
  | cons b bs ih => simpa [scan, resolvedStep] using ih

theorem resolvedStep_ordered (z : Bool) (msg : Envelope) (batches : List Batch) (ok : Bool) :
    resolvedStep z (Action.Ordered msg batches ok) = some (if batches = [] then z else true) := by
  cases batches <;> simp [resolvedStep]

theorem resolvedStep_timerNil (z : Bool) : resolvedStep z Action.timerNil = some z := by
  simp [resolvedStep]

theorem countP_isCut_appends (batches : List Batch) :
    List.countP (Action.isCut ∘ fun batch => Action.Append batch none) batches = 0 := by
  induction batches with
  | nil => rfl
  | cons b bs _ => simp [List.countP_cons, Action.isCut]

theorem countP_isArm_appends (batches : List Batch) :
    List.countP (Action.isArm ∘ fun batch => Action.Append batch none) batches = 0 := by
  induction batches with
  | nil => rfl
  | cons b bs _ => simp [List.countP_cons, Action.isArm]

/-- A trace on which the first automaton does not get stuck has, before each
`Cut`, the `timer = nil` of an armed timer. -/
theorem scan_fired_cut (before : List Action) :
    ∀ (cur : Option Time) (fired : Bool) (batch : Batch) (after : List Action),
      (scan firedStep (cur, fired) (before ++ Action.Cut batch :: after)).isSome = true →
      (before = [] ∧ fired = true) ∨
      ∃ pre deadline, before = pre ++ [Action.timerNil] ∧ timerOf cur pre = some deadline := by
  induction before with
  | nil =>
    intro cur fired batch after h
    cases fired with
    | true => exact Or.inl ⟨rfl, rfl⟩
    | false => simp [scan, firedStep] at h
  | cons a rest ih =>
    intro cur fired batch after h
    right
    have key : ∀ cur' : Option Time,
        (scan firedStep (cur', false) (rest ++ Action.Cut batch :: after)).isSome = true →
        (∀ pre, timerOf cur (a :: pre) = timerOf cur' pre) →
        ∃ pre deadline, a :: rest = pre ++ [Action.timerNil] ∧
          timerOf cur pre = some deadline := by
      intro cur' h' ht
      rcases ih cur' false batch after h' with ⟨_, hf⟩ | ⟨pre, deadline, hpre, hd⟩
      · cases hf
      · exact ⟨a :: pre, deadline, by simp [hpre], by rw [ht, hd]⟩
    cases a with
    | Ordered msg batches ok =>
      exact key cur (by simpa [scan, firedStep] using h) (fun pre => by simp [timerOf])
    | Cut b =>
      cases fired with
      | true => exact key cur (by simpa [scan, firedStep] using h) (fun pre => by simp [timerOf])
      | false => simp [scan, firedStep] at h
    | Append b m =>
      exact key cur (by simpa [scan, firedStep] using h) (fun pre => by simp [timerOf])
    | Warningf f =>
      exact key cur (by simpa [scan, firedStep] using h) (fun pre => by simp [timerOf])
    | Debugf f =>
      exact key cur (by simpa [scan, firedStep] using h) (fun pre => by simp [timerOf])
    | timerSet deadline =>
      exact key (some deadline) (by simpa [scan, firedStep] using h)
        (fun pre => by simp [timerOf])
    | timerNil =>
      have h' : (scan firedStep (none, cur.isSome)
          (rest ++ Action.Cut batch :: after)).isSome = true := by
        simpa [scan, firedStep] using h
      rcases ih none cur.isSome batch after h' with ⟨hrest, hf⟩ | ⟨pre, deadline, hpre, hd⟩
      · obtain ⟨deadline, hcur⟩ := Option.isSome_iff_exists.mp hf
        exact ⟨[], deadline, by simp [hrest], by simp [timerOf, hcur]⟩
      · exact ⟨Action.timerNil :: pre, deadline, by simp [hpre], by simpa [timerOf] using hd⟩

/-- A trace on which the second automaton does not get stuck has an arming
between an `Ordered` that returned batches and the next `Cut`. -/
theorem scan_resolved_cut (mid : List Action) :
    ∀ (batch : Batch) (after : List Action),
      (scan resolvedStep true (mid ++ Action.Cut batch :: after)).isSome = true →
      ∃ a ∈ mid, a.isArm = true := by
  induction mid with
  | nil =>
    intro batch after h
    simp [scan, resolvedStep] at h
  | cons a rest ih =>
    intro batch after h
    have key : (scan resolvedStep true (rest ++ Action.Cut batch :: after)).isSome = true →
        ∃ x ∈ a :: rest, x.isArm = true := by
      intro h'
      obtain ⟨x, hx, harm⟩ := ih batch after h'
      exact ⟨x, List.mem_cons_of_mem a hx, harm⟩
    cases a with
    | Ordered msg batches ok =>
      exact key (by simpa [scan, resolvedStep_ordered] using h)
    | Cut b => simp [scan, resolvedStep] at h
    | Append b m => exact key (by simpa [scan, resolvedStep] using h)
    | Warningf f => exact key (by simpa [scan, resolvedStep] using h)
    | Debugf f => exact key (by simpa [scan, resolvedStep] using h)
    | timerSet deadline => exact ⟨_, List.mem_cons_self _ _, rfl⟩
    | timerNil => exact key (by simpa [scan, resolvedStep] using h)

/-- Every iteration of the loop keeps: neither automaton is stuck on the trace,
the first one holds the value of `timer`, the second one is in its resolved
state only when `timer` is `nil`, and the calls of `Cut`, plus one when the
timer is armed, do not outnumber the armings. -/
theorem mainStep_cut_guarded {κ : Type} (w : World κ) (e : Event) (w' : World κ)
    (hinv : (∃ fired, scan firedStep (none, false) w.trace = some (w.timer, fired)) ∧
      (∃ z, scan resolvedStep false w.trace = some z ∧ (z = true → w.timer = none)) ∧
      w.trace.countP Action.isCut + (if w.timer.isSome then 1 else 0) ≤
        w.trace.countP Action.isArm)
    (hstep : chain.mainStep w e = some w') :
    (∃ fired, scan firedStep (none, false) w'.trace = some (w'.timer, fired)) ∧
      (∃ z, scan resolvedStep false w'.trace = some z ∧ (z = true → w'.timer = none)) ∧
      w'.trace.countP Action.isCut + (if w'.timer.isSome then 1 else 0) ≤
        w'.trace.countP Action.isArm := by
  obtain ⟨⟨fired, hf⟩, ⟨z, hz, hzt⟩, hcount⟩ := hinv
  obtain ⟨_, hc | hc | hc⟩ := mainStep_cases w e w' hstep
  · obtain ⟨msg, now, _, rfl⟩ := hc
    rw [onMsg_eq]
    by_cases harm : (w.ch.support.Ordered w.cutter msg).1.2 = true ∧
        (w.ch.support.Ordered w.cutter msg).1.1 = [] ∧ w.timer = none
    · rw [if_pos harm]
      have ht := harm.2.2
      rw [ht] at hcount hf
      refine ⟨⟨false, ?_⟩, ⟨false, ?_, by simp⟩, ?_⟩
      · simp [scan_append, hf, scan, firedStep]
      · simp [scan_append, hz, scan, resolvedStep]
      · simp only [List.countP_append, List.countP_cons, List.countP_nil, Action.isCut,
          Action.isArm, Option.isSome_some, if_true] at hcount ⊢
        simp at hcount ⊢
        omega
    · rw [if_neg harm]
      by_cases hb : (w.ch.support.Ordered w.cutter msg).1.1 = []
      · rw [if_pos hb]
        refine ⟨⟨false, ?_⟩, ⟨z, ?_, hzt⟩, ?_⟩
        · simp [scan_append, hf, scan, firedStep]
        · simp [scan_append, hz, scan, resolvedStep]
        · simpa [List.countP_append, List.countP_cons, Action.isCut, Action.isArm] using hcount
      · rw [if_neg hb]
        refine ⟨⟨w.timer.isSome, ?_⟩, ⟨true, ?_, by simp⟩, ?_⟩
        · simp [scan_append, hf, scan, firedStep, scan_fired_appends]
        · simp [scan_append, hz, scan, resolvedStep_ordered, hb, scan_resolved_appends,
            resolvedStep_timerNil]
        · have : w.trace.countP Action.isCut ≤ w.trace.countP Action.isArm := by omega
          simpa [List.countP_append, List.countP_cons, Action.isCut, Action.isArm,
            countP_isCut_appends, countP_isArm_appends] using this
  · obtain ⟨now, deadline, _, ht, _, rfl⟩ := hc
    rw [onTimer_eq]
    have hz' : z = false := by
      cases z with
      | false => rfl
      | true => rw [hzt rfl] at ht; cases ht
    subst hz'
    rw [ht] at hcount hf
    have hcount' : w.trace.countP Action.isCut + 1 ≤ w.trace.countP Action.isArm := by
      simpa using hcount
    by_cases hb : (w.ch.support.Cut w.cutter).1 = []
    · rw [if_pos hb]
      refine ⟨⟨false, ?_⟩, ⟨false, ?_, by simp⟩, ?_⟩
      · simp [scan_append, hf, scan, firedStep]
      · simp [scan_append, hz, scan, resolvedStep]
      · simpa [List.countP_append, List.countP_cons, Action.isCut, Action.isArm] using hcount'
    · rw [if_neg hb]
      refine ⟨⟨false, ?_⟩, ⟨false, ?_, by simp⟩, ?_⟩
      · simp [scan_append, hf, scan, firedStep]
      · simp [scan_append, hz, scan, resolvedStep]
      · simpa [List.countP_append, List.countP_cons, Action.isCut, Action.isArm] using hcount'
  · obtain ⟨_, _, rfl⟩ := hc
    refine ⟨⟨false, ?_⟩, ⟨z, ?_, hzt⟩, ?_⟩
    · simp [chain.onExit, scan_append, hf, scan, firedStep]
    · simp [chain.onExit, scan_append, hz, scan, resolvedStep]
    · simpa [chain.onExit, List.countP_append, List.countP_cons, Action.isCut, Action.isArm]
        using hcount

/-- C15: in every execution of the loop from a fresh chain, each call of `Cut`
comes right after the `timer = nil` that opens the timer case, and up to that
point the last assignment to `timer` was an arming: the timer was armed when
the case was taken, with no disarm since the arming.  So the calls of `Cut` do
not outnumber the armings, and between an `Ordered` that returned a non-empty
batch list and a later `Cut` the timer is armed again. -/
theorem cut_only_while_timer_armed {κ : Type} (d : Duration) (support : ConsenterSupport κ)
    (k : κ) (evs : List Event) (w : World κ)
    (hrun : execute d support k evs = some w) :
    (∀ before batch after, w.trace = before ++ Action.Cut batch :: after →
      ∃ pre deadline, before = pre ++ [Action.timerNil] ∧ timerOf none pre = some deadline) ∧
    w.trace.countP Action.isCut ≤ w.trace.countP Action.isArm ∧
    (∀ before msg batches ok mid batch after,
      w.trace = before ++ Action.Ordered msg batches ok :: (mid ++ Action.Cut batch :: after) →
      batches ≠ [] → ∃ a ∈ mid, a.isArm = true) := by
  rw [execute_eq] at hrun
  obtain ⟨⟨fired, hf⟩, ⟨z, hz, _⟩, hcount⟩ := main_preserves
    (fun w : World κ =>
      (∃ fired, scan firedStep (none, false) w.trace = some (w.timer, fired)) ∧
      (∃ z, scan resolvedStep false w.trace = some z ∧ (z = true → w.timer = none)) ∧
      w.trace.countP Action.isCut + (if w.timer.isSome then 1 else 0) ≤
        w.trace.countP Action.isArm)
    mainStep_cut_guarded evs _ w
    ⟨⟨false, by simp [scan]⟩, ⟨false, by simp [scan], by simp⟩, by simp⟩ hrun
  refine ⟨?_, by omega, ?_⟩
  · intro before batch after hsplit
    rw [hsplit] at hf
    rcases scan_fired_cut before none false batch after (by simp [hf]) with ⟨_, h⟩ | h
    · cases h
    · exact h
  · intro before msg batches ok mid batch after hsplit hne
    rw [hsplit, scan_append] at hz
    cases hpre : scan resolvedStep false before with
    | none => simp [hpre] at hz
    | some z0 =>
      have hrest : (scan resolvedStep true (mid ++ Action.Cut batch :: after)).isSome = true := by
        simp [hpre, scan, resolvedStep_ordered, hne] at hz
        simp [hz]
      exact scan_resolved_cut mid batch after hrest

/-- Witness for C15: an envelope arms the timer, the timer fires and `Cut` is
called, two more envelopes fill a batch, and a last envelope arms the timer
again. -/
theorem cut_only_while_timer_armed_witness :
    (∀ before batch after,
      [Action.Ordered 1 [] true, Action.timerSet 10, Action.timerNil, Action.Cut [1],
        Action.Debugf "Batch timer expired, creating block", Action.Append [1] none,
        Action.Ordered 2 [] true, Action.timerSet 25,
        Action.Ordered 3 [[2, 3]] true, Action.Append [2, 3] none, Action.timerNil] =
        before ++ Action.Cut batch :: after →
      ∃ pre deadline, before = pre ++ [Action.timerNil] ∧ timerOf none pre = some deadline) ∧
    [Action.Ordered 1 [] true, Action.timerSet 10, Action.timerNil, Action.Cut [1],
        Action.Debugf "Batch timer expired, creating block", Action.Append [1] none,
        Action.Ordered 2 [] true, Action.timerSet 25,
        Action.Ordered 3 [[2, 3]] true, Action.Append [2, 3] none,
        Action.timerNil].countP Action.isCut ≤
      [Action.Ordered 1 [] true, Action.timerSet 10, Action.timerNil, Action.Cut [1],
        Action.Debugf "Batch timer expired, creating block", Action.Append [1] none,
        Action.Ordered 2 [] true, Action.timerSet 25,
        Action.Ordered 3 [[2, 3]] true, Action.Append [2, 3] none,
        Action.timerNil].countP Action.isArm ∧
    (∀ before msg batches ok mid batch after,
      [Action.Ordered 1 [] true, Action.timerSet 10, Action.timerNil, Action.Cut [1],
        Action.Debugf "Batch timer expired, creating block", Action.Append [1] none,
        Action.Ordered 2 [] true, Action.timerSet 25,
        Action.Ordered 3 [[2, 3]] true, Action.Append [2, 3] none, Action.timerNil] =
        before ++ Action.Ordered msg batches ok :: (mid ++ Action.Cut batch :: after) →
      batches ≠ [] → ∃ a ∈ mid, a.isArm = true) :=
  cut_only_while_timer_armed 10 (countCutter 2) []
    [.recv 1 0, .timer 12, .recv 2 15, .recv 3 16]
    { ch := newChain 10 (countCutter 2), main := .looping, timer := none, cutter := [],
      trace := [Action.Ordered 1 [] true, Action.timerSet 10, Action.timerNil, Action.Cut [1],
        Action.Debugf "Batch timer expired, creating block", Action.Append [1] none,
        Action.Ordered 2 [] true, Action.timerSet 25,
        Action.Ordered 3 [[2, 3]] true, Action.Append [2, 3] none, Action.timerNil] }
    rfl

end solo
